import Mathlib

/-!
Verification of the NJ-EASE document-validation rule engine.

This file is a shallow embedding, in Lean 4, of the validation core of the
repository: the organization-name normalizer and matcher, the
six-month-recency date checker, the per-document-type rule sets, the
dispatcher and the response aggregation.  Pure JavaScript string and date
operations are modelled by executable Lean functions over `String` /
`List Char` / `Int`; the fixed regular expressions of the source are each
modelled by a dedicated backtracking scanner with the same matching
semantics (leftmost match, greedy / lazy quantifiers as written).  The
ambient wall clock read by `new Date()` is modelled by an explicit
`JsNow` parameter (a civil date taken at local midnight).  Character
handling models the ASCII fragment that the documents use: `\w` is
`[A-Za-z0-9_]`, `\s` is the ASCII whitespace set, and `toLowerCase` is
ASCII lowercasing.
-/

set_option autoImplicit false

namespace NJEase

/-! ### JavaScript character classes and string primitives -/

/-- JS regex `\w` (ASCII word character `[A-Za-z0-9_]`), by code point. -/
def isWordChar (c : Char) : Bool :=
  (97 ≤ c.toNat && c.toNat ≤ 122) || (65 ≤ c.toNat && c.toNat ≤ 90) ||
  (48 ≤ c.toNat && c.toNat ≤ 57) || c.toNat == 95

/-- JS regex `\s`, restricted to ASCII whitespace
(space, tab, newline, carriage return, vertical tab, form feed). -/
def isJsWs (c : Char) : Bool :=
  c.toNat == 32 || c.toNat == 9 || c.toNat == 10 || c.toNat == 13 ||
  c.toNat == 11 || c.toNat == 12

/-- `String.prototype.toLowerCase`, ASCII fragment, per character (the same
arithmetic as the core `Char.toLower`). -/
def jsLowerChar (c : Char) : Char :=
  if 65 ≤ c.toNat ∧ c.toNat ≤ 90 then Char.ofNat (c.toNat + 32) else c

/-- `String.prototype.toUpperCase`, ASCII fragment, per character. -/
def jsUpperChar (c : Char) : Char :=
  if 97 ≤ c.toNat ∧ c.toNat ≤ 122 then Char.ofNat (c.toNat - 32) else c

/-- `needle` is a leading subsequence (character-for-character) of the second list. -/
def listLeadMatch : List Char → List Char → Bool
  | [], _ => true
  | _ :: _, [] => false
  | a :: as, b :: bs => a == b && listLeadMatch as bs

/-- JS `hay.includes(needle)` on character lists. -/
def listContains (needle : List Char) : List Char → Bool
  | [] => needle.isEmpty
  | c :: cs => listLeadMatch needle (c :: cs) || listContains needle cs

/-- JS `s.includes(sub)`. -/
def strContains (s sub : String) : Bool :=
  listContains sub.toList s.toList

/-- JS `s.startsWith(pre)` (used for the anchored `^...` regexes). -/
def strStartsWith (s pre : String) : Bool :=
  listLeadMatch pre.toList s.toList

/-- JS `s.toLowerCase()` (ASCII fragment). -/
def jsToLower (s : String) : String := String.mk (s.toList.map jsLowerChar)

/-- JS `s.toUpperCase()` (ASCII fragment). -/
def jsToUpper (s : String) : String := String.mk (s.toList.map jsUpperChar)

/-- JS `s.split('\n')` (an empty string yields one empty piece). -/
def splitNlAux (acc : List Char) : List Char → List String
  | [] => [String.mk acc.reverse]
  | c :: cs =>
    if c = '\n' then String.mk acc.reverse :: splitNlAux [] cs
    else splitNlAux (c :: acc) cs

def splitNl (s : String) : List String := splitNlAux [] s.toList

/-- JS `s.trim()` on a character list. -/
def jsTrimList (s : List Char) : List Char :=
  ((s.dropWhile isJsWs).reverse.dropWhile isJsWs).reverse

/-- JS `s.trim()`. -/
def jsTrim (s : String) : String := String.mk (jsTrimList s.toList)

/-- JS truthiness of an optional string value (null / undefined / `""` are falsy). -/
def jsTruthy : Option String → Bool
  | some s => s != ""
  | none => false

theorem length_dropWhile_le_self (p : Char → Bool) (l : List Char) :
    (l.dropWhile p).length ≤ l.length := by
  induction l with
  | nil => simp
  | cons a as ih =>
    by_cases h : p a
    · simp only [List.dropWhile_cons, h, if_true, List.length_cons]
      omega
    · simp [List.dropWhile_cons, h]

/-! ### OrganizationNameMatcher: `normalizeOrganizationName` and
`organizationNamesMatch` (helper functions of the Azure validation handler) -/

/-- The abbreviation table of `normalizeOrganizationName`, in source order
(the replacement passes run sequentially in this order). -/
def abbreviationMap : List (String × String) :=
  [("llc", "limited liability company"),
   ("inc", "incorporated"),
   ("corp", "corporation"),
   ("co", "company"),
   ("ltd", "limited"),
   ("lp", "limited partnership"),
   ("llp", "limited liability partnership"),
   ("pllc", "professional limited liability company"),
   ("pc", "professional corporation"),
   ("pa", "professional association"),
   ("plc", "professional limited company")]

/-- The `\b` on the left of a token that starts with a word character: true
when the previous character (`none` at the start of the string) is not a word
character. -/
def boundaryOk : Option Char → Bool
  | none => true
  | some c => !isWordChar c

/-- The lookahead class of the abbreviation pattern, `(?=\s|$|[,;])` (the
end-of-string case is handled where the scanner sees an empty rest). -/
def isLookaheadChar (c : Char) : Bool := isJsWs c || c.toNat == 44 || c.toNat == 59

/-- Leading case-insensitive match: `pat` (already lowercase) matches the
first `pat.length` characters of `s` up to ASCII case. -/
def leadMatchCI : List Char → List Char → Bool
  | [], _ => true
  | _ :: _, [] => false
  | a :: as, b :: bs => a == jsLowerChar b && leadMatchCI as bs

/-- Whether the rest of the string satisfies `(?=\s|$|[,;])`. -/
def lookaheadOkAt : List Char → Bool
  | [] => true
  | c :: _ => isLookaheadChar c

/-- Match of `abbr\.?(?=\s|$|[,;])` at the head of `s`: the number of
characters consumed (the abbreviation plus the optional period), if any.
`\.?` is greedy; when consuming the period makes the lookahead fail, the
engine retries without it, and the lookahead then sees the period itself,
which is not in the class, so the position fails either way. -/
def tokMatch (abbr s : List Char) : Option Nat :=
  if abbr.isEmpty then none
  else if leadMatchCI abbr s then
    match s.drop abbr.length with
    | '.' :: rest2 => if lookaheadOkAt rest2 then some (abbr.length + 1) else none
    | rest => if lookaheadOkAt rest then some abbr.length else none
  else none

theorem tokMatch_one_le {abbr s : List Char} {n : Nat} (h : tokMatch abbr s = some n) :
    1 ≤ n := by
  unfold tokMatch at h
  split at h
  · exact absurd h (by simp)
  · rename_i he
    have hlen : 1 ≤ abbr.length := by
      cases abbr with
      | nil => simp at he
      | cons a as => simp
    split at h
    · split at h
      · split at h
        · simp only [Option.some.injEq] at h
          omega
        · exact absurd h (by simp)
      · split at h
        · simp only [Option.some.injEq] at h
          omega
        · exact absurd h (by simp)
    · exact absurd h (by simp)

/-- One pass of the global replace
`normalized.replace(new RegExp("\\b" + abbr + "\\.?(?=\\s|$|[,;])", "gi"), full)`:
a left-to-right scan of the original characters; `prev` is the character just
before the current position (`none` at the start), which decides `\b`.
Replaced text is not rescanned (the regex engine walks the original string). -/
def expandScanF (abbr full : List Char) : Nat → Option Char → List Char → List Char
  | 0, _, _ => []
  | _ + 1, _, [] => []
  | fuel + 1, prev, c :: cs =>
    match (if boundaryOk prev then tokMatch abbr (c :: cs) else none) with
    | some n =>
      full ++ expandScanF abbr full fuel (some (((c :: cs).take n).getLastD c)) ((c :: cs).drop n)
    | none => c :: expandScanF abbr full fuel (some c) cs

/-- The fuel argument, initialized to the character count, is only a
structural-termination device: every scanner step consumes at least one
original character (`tokMatch` never returns 0), so the fuel never runs
out. -/
def expandScan (abbr full : List Char) (prev : Option Char) (s : List Char) : List Char :=
  expandScanF abbr full s.length prev s

/-- `replace(/[,\.]/g, '')`. -/
def stripPunctList (s : List Char) : List Char :=
  s.filter (fun c => !(c == ',' || c == '.'))

/-- `replace(/\s+/g, ' ')`: every maximal whitespace run becomes a single
space (fuel as above). -/
def collapseWsF : Nat → List Char → List Char
  | 0, _ => []
  | _ + 1, [] => []
  | fuel + 1, c :: cs =>
    if isJsWs c then ' ' :: collapseWsF fuel (cs.dropWhile isJsWs)
    else c :: collapseWsF fuel cs

def collapseWsList (s : List Char) : List Char := collapseWsF s.length s

/-- The eleven sequential abbreviation-expansion passes. -/
def expandAbbreviations (s : List Char) : List Char :=
  abbreviationMap.foldl (fun acc p => expandScan p.1.toList p.2.toList none acc) s

/-- `normalizeOrganizationName` (lowercase, trim, strip commas and periods,
collapse whitespace, then expand each legal-entity abbreviation to its full
form). A null / non-string / empty argument yields `""`. -/
def normalizeOrganizationName (name : String) : String :=
  if name = "" then ""
  else
    let n1 := jsTrimList (jsToLower name).toList
    let n2 := jsTrimList (collapseWsList (stripPunctList n1))
    String.mk (expandAbbreviations n2)

/-- The entity-type list scanned by the inner `getEntityType` closures, in
source order. -/
def entityTypesList : List String :=
  ["limited liability company", "incorporated", "corporation", "company", "limited",
   "limited partnership", "limited liability partnership",
   "professional limited liability company", "professional corporation",
   "professional association", "professional limited company"]

/-- Inner `getEntityType`: the first entry of `entityTypesList` that occurs
anywhere in the (already normalized) name, else `null`. -/
def getEntityType (name : String) : Option String :=
  entityTypesList.find? (fun et => strContains name et)

/-- Whether the rest of the string satisfies a trailing `\b` after a word
character (next character absent or not a word character). -/
def trailingBoundaryOk : List Char → Bool
  | [] => true
  | c :: _ => !isWordChar c

/-- Match, at the head of `s`, of one alternative of the entity-type
alternation of `removeEntitySuffixes`, followed by a trailing `\b`; the first
alternative in source order wins. Returns the consumed length. -/
def entityAltMatch (s : List Char) : Option Nat :=
  entityTypesList.findSome? (fun et =>
    let etl := et.toList
    if leadMatchCI etl s && trailingBoundaryOk (s.drop etl.length) then some etl.length
    else none)

theorem entityAltMatch_one_le {s : List Char} {n : Nat} (h : entityAltMatch s = some n) :
    1 ≤ n := by
  unfold entityAltMatch at h
  obtain ⟨et, hmem, hf⟩ := List.exists_of_findSome?_eq_some h
  simp only at hf
  split at hf
  · simp only [Option.some.injEq] at hf
    have h1 : ∀ x ∈ entityTypesList, 1 ≤ x.toList.length := by decide
    have h2 := h1 et hmem
    omega
  · exact absurd hf (by simp)

/-- The global replace of
`/\b(limited liability company|incorporated|...)\b/gi` by the empty string:
left-to-right scan, boundary decided by the previous original character. -/
def removeSuffixScanF : Nat → Option Char → List Char → List Char
  | 0, _, _ => []
  | _ + 1, _, [] => []
  | fuel + 1, prev, c :: cs =>
    match (if boundaryOk prev then entityAltMatch (c :: cs) else none) with
    | some n => removeSuffixScanF fuel (some (((c :: cs).take n).getLastD c)) ((c :: cs).drop n)
    | none => c :: removeSuffixScanF fuel (some c) cs

def removeSuffixScan (prev : Option Char) (s : List Char) : List Char :=
  removeSuffixScanF s.length prev s

/-- Inner `removeEntitySuffixes`: strip every entity-type phrase (at word
boundaries) and trim. -/
def removeEntitySuffixes (name : String) : String :=
  jsTrim (String.mk (removeSuffixScan none name.toList))

/-- `a.includes(b)` on two optional strings, false unless both are present
(mirrors `entity1 && entity2 && entity1.includes(entity2)`). -/
def optIncludes : Option String → Option String → Bool
  | some a, some b => strContains a b
  | _, _ => false

/-- The entity-type compatibility test of the substring branch of
`organizationNamesMatch`: same type, one side without a type, or one type's
full name containing the other's. -/
def substringGate (e1 e2 : Option String) : Bool :=
  e1 == e2 || e1.isNone || e2.isNone || (optIncludes e1 e2 || optIncludes e2 e1)

/-- The entity-type compatibility test of the core-name branch of
`organizationNamesMatch`: same type, one side without a type, or one of the
four explicitly compatible ordered pairs. -/
def coreGate (e1 e2 : Option String) : Bool :=
  e1 == e2 || e1.isNone || e2.isNone ||
  (e1 == some "corporation" && e2 == some "incorporated") ||
  (e1 == some "incorporated" && e2 == some "corporation") ||
  (e1 == some "company" && e2 == some "corporation") ||
  (e1 == some "corporation" && e2 == some "company")

/-- `organizationNamesMatch(name1, name2)`: normalize both, accept equal
strings, then a substring containment gated by `substringGate`, then equal
core names (entity suffixes stripped, both longer than 2) gated by
`coreGate`. -/
def organizationNamesMatch (name1 name2 : String) : Bool :=
  if name1 = "" ∨ name2 = "" then false
  else
    let normalized1 := normalizeOrganizationName name1
    let normalized2 := normalizeOrganizationName name2
    if normalized1 = normalized2 then true
    else if strContains normalized1 normalized2 || strContains normalized2 normalized1 then
      substringGate (getEntityType normalized1) (getEntityType normalized2)
    else
      let core1 := removeEntitySuffixes normalized1
      let core2 := removeEntitySuffixes normalized2
      if core1 ≠ "" ∧ core2 ≠ "" ∧ 2 < core1.length ∧ 2 < core2.length ∧ core1 = core2 then
        coreGate (getEntityType normalized1) (getEntityType normalized2)
      else false

/-! ### DateExtractor: `checkDateWithinSixMonths`

JS `Date` values are modelled as day numbers (days since the Unix epoch,
proleptic Gregorian calendar; the civil-from-days algorithm of the usual C++
`days_from_civil`).  `new Date(y, m, d)` normalizes any out-of-range month
and day by calendar arithmetic, which the model reproduces exactly; within
the 4-digit-year ranges produced by the scanners a constructed date is never
`NaN`, so the source's `isNaN` guards are constantly false.  The ambient
clock `new Date()` is a `JsNow` parameter, taken at local midnight (the
parsed document dates are midnights, so the window comparisons match the
source's whenever the request runs at midnight; the model fixes that
convention). -/

/-- The wall clock as JS exposes it: `getFullYear() / getMonth() / getDate()`
(month 0-based). -/
structure JsNow where
  year : Int
  monthIdx : Int
  day : Int

/-- Days since 1970-01-01 of the civil date (y, m, d) with m ∈ [1,12]; the
formula is linear in d, so any day value is normalized by calendar
arithmetic, exactly as the JS `Date` constructor does. -/
def daysFromCivil (y m d : Int) : Int :=
  let y2 := if m ≤ 2 then y - 1 else y
  let era := y2.fdiv 400
  let yoe := y2 - era * 400
  let mp := (m + 9).emod 12
  let doy := (153 * mp + 2).fdiv 5 + (d - 1)
  let doe := yoe * 365 + yoe.fdiv 4 - yoe.fdiv 100 + doy
  era * 146097 + doe - 719468

/-- `new Date(year, monthIdx, day)` (0-based month, both month and day
normalized by rollover), as a day number. -/
def jsMakeDate (y m d : Int) : Int :=
  let months := y * 12 + m
  daysFromCivil (months.fdiv 12) (months.emod 12 + 1) d

/-- `sixMonthsAgo.setMonth(now.getMonth() - 6)` starting from a copy of
`now`: calendar-month arithmetic, day-of-month kept and normalized. -/
def sixMonthsAgoDays (now : JsNow) : Int :=
  jsMakeDate now.year (now.monthIdx - 6) now.day

/-- The day number of the clock itself. -/
def nowDays (now : JsNow) : Int :=
  jsMakeDate now.year now.monthIdx now.day

/-- `date >= sixMonthsAgo && date <= now`, inclusive at both ends. -/
def dateInWindow (sixAgo nowD d : Int) : Bool :=
  decide (sixAgo ≤ d) && decide (d ≤ nowD)

/-- Numeric value of an ASCII digit. -/
def digitVal (c : Char) : Nat := c.toNat - 48

/-- `(\d{4})`: exactly four digits at the head; their value and the rest. -/
def year4 : List Char → Option (Nat × List Char)
  | a :: b :: c :: d :: rest =>
    if a.isDigit && b.isDigit && c.isDigit && d.isDigit then
      some (1000 * digitVal a + 100 * digitVal b + 10 * digitVal c + digitVal d, rest)
    else none
  | _ => none

/-- The numeric-date separator class `[\/\-\.]`. -/
def isDateSep (c : Char) : Bool := c == '/' || c == '-' || c == '.'

/-- One parsed `(\d{1,2})[\/\-\.](\d{1,2})[\/\-\.](\d{4})` match. -/
structure NumDate where
  p1 : Nat
  p2 : Nat
  year : Nat
deriving DecidableEq

/-- Second group and year of the numeric pattern: `\d{1,2}` (greedy, the
two-digit reading tried first with full backtracking) then a separator then
`\d{4}`. -/
def numTail (p1 : Nat) (s : List Char) : Option (NumDate × List Char) :=
  (match s with
   | a :: b :: c :: rest =>
     if a.isDigit && b.isDigit && isDateSep c then
       (year4 rest).map (fun yr => (⟨p1, 10 * digitVal a + digitVal b, yr.1⟩, yr.2))
     else none
   | _ => none)
  <|>
  (match s with
   | a :: b :: rest =>
     if a.isDigit && isDateSep b then
       (year4 rest).map (fun yr => (⟨p1, digitVal a, yr.1⟩, yr.2))
     else none
   | _ => none)

/-- Match of the whole numeric date pattern at the head of `s`. -/
def matchNumAt (s : List Char) : Option (NumDate × List Char) :=
  (match s with
   | a :: b :: c :: rest =>
     if a.isDigit && b.isDigit && isDateSep c then numTail (10 * digitVal a + digitVal b) rest
     else none
   | _ => none)
  <|>
  (match s with
   | a :: b :: rest =>
     if a.isDigit && isDateSep b then numTail (digitVal a) rest
     else none
   | _ => none)

/-- `content.matchAll(numericDateRegex)`: leftmost matches, the scan resuming
after each match.  The fuel, initialized to the character count, is only a
structural-termination device: every step consumes at least one character. -/
def scanNumericF : Nat → List Char → List NumDate
  | 0, _ => []
  | _ + 1, [] => []
  | fuel + 1, c :: cs =>
    match matchNumAt (c :: cs) with
    | some (nd, rest) => nd :: scanNumericF fuel rest
    | none => scanNumericF fuel cs

def scanNumeric (s : List Char) : List NumDate := scanNumericF s.length s

/-- The English month names, in the alternation order of the source. -/
def monthNames : List String :=
  ["january", "february", "march", "april", "may", "june", "july", "august",
   "september", "october", "november", "december"]

/-- First month name (source order) that is a case-insensitive leading match:
its 0-based index and the rest. -/
def matchMonthAux : Nat → List String → List Char → Option (Nat × List Char)
  | _, [], _ => none
  | i, m :: ms, s =>
    if leadMatchCI m.toList s then some (i, s.drop m.toList.length)
    else matchMonthAux (i + 1) ms s

def matchMonthName (s : List Char) : Option (Nat × List Char) :=
  matchMonthAux 0 monthNames s

/-- `\s+` (greedy; every follower in the written patterns is disjoint from
whitespace, so committing to the maximal run is exact). -/
def wsPlus : List Char → Option (List Char)
  | c :: cs => if isJsWs c then some (cs.dropWhile isJsWs) else none
  | [] => none

/-- `(\d{1,2})` greedy, with backtracking into the continuation `k`. -/
def matchDayThen {α : Type} (k : Nat → List Char → Option α) (s : List Char) : Option α :=
  (match s with
   | a :: b :: rest =>
     if a.isDigit && b.isDigit then k (10 * digitVal a + digitVal b) rest else none
   | _ => none)
  <|>
  (match s with
   | a :: rest => if a.isDigit then k (digitVal a) rest else none
   | _ => none)

/-- `(?:st|nd|rd|th)?` (case-insensitive, greedy, with backtracking into the
continuation `k`). -/
def matchOrdSuffixThen {α : Type} (k : List Char → Option α) (s : List Char) : Option α :=
  (match s with
   | a :: b :: rest =>
     if (jsLowerChar a == 's' && jsLowerChar b == 't') || (jsLowerChar a == 'n' && jsLowerChar b == 'd') ||
        (jsLowerChar a == 'r' && jsLowerChar b == 'd') || (jsLowerChar a == 't' && jsLowerChar b == 'h') then
       k rest
     else none
   | _ => none)
  <|> k s

/-- `[,\s]+?(\d{4})`: the lazy separator run, trying the four-digit year
after each further separator character (shortest expansion first). -/
def lazySepYear : List Char → Option (Nat × List Char)
  | c :: cs =>
    if c == ',' || isJsWs c then
      match year4 cs with
      | some r => some r
      | none => lazySepYear cs
    else none
  | [] => none

/-- One parsed written date: 0-based month, day, year. -/
structure WrittenDate where
  monthIdx : Nat
  day : Nat
  year : Nat
deriving DecidableEq

/-- First alternative of the written pattern:
`(month)\s+(\d{1,2})(?:st|nd|rd|th)?[,\s]+?(\d{4})`. -/
def matchWrittenA (s : List Char) : Option (WrittenDate × List Char) :=
  match matchMonthName s with
  | none => none
  | some (m, r1) =>
    match wsPlus r1 with
    | none => none
    | some r2 =>
      matchDayThen (fun d r3 =>
        matchOrdSuffixThen (fun r4 =>
          (lazySepYear r4).map (fun yr => (⟨m, d, yr.1⟩, yr.2))) r3) r2

/-- Second alternative of the written pattern:
`(\d{1,2})(?:st|nd|rd|th)?\s+(month)[,\s]+?(\d{4})`. -/
def matchWrittenB (s : List Char) : Option (WrittenDate × List Char) :=
  matchDayThen (fun d r1 =>
    matchOrdSuffixThen (fun r2 =>
      match wsPlus r2 with
      | none => none
      | some r3 =>
        match matchMonthName r3 with
        | none => none
        | some (m, r4) => (lazySepYear r4).map (fun yr => (⟨m, d, yr.1⟩, yr.2))) r1) s

/-- The written-date alternation, first alternative preferred. -/
def matchWrittenAt (s : List Char) : Option (WrittenDate × List Char) :=
  matchWrittenA s <|> matchWrittenB s

/-- `content.matchAll(writtenDateRegex)` (fuel as in `scanNumericF`). -/
def scanWrittenF : Nat → List Char → List WrittenDate
  | 0, _ => []
  | _ + 1, [] => []
  | fuel + 1, c :: cs =>
    match matchWrittenAt (c :: cs) with
    | some (wd, rest) => wd :: scanWrittenF fuel rest
    | none => scanWrittenF fuel cs

def scanWritten (s : List Char) : List WrittenDate := scanWrittenF s.length s

/-- `(\w+)` greedy: the maximal nonempty run of word characters. -/
def wordPlus : List Char → Option (List Char × List Char)
  | c :: cs =>
    if isWordChar c then some ((c :: cs).takeWhile isWordChar, (c :: cs).dropWhile isWordChar)
    else none
  | [] => none

/-- One parsed ordinal-phrase date: the captured month word (looked up by the
caller), day, year. -/
structure OrdinalDate where
  monthWord : List Char
  day : Nat
  year : Nat
deriving DecidableEq

/-- Match of `(\d{1,2})(st|nd|rd|th)? day of (\w+),\s*(\d{4})` at the head
of `s` (case-insensitive; the inner literals are single spaces). -/
def matchOrdinalAt (s : List Char) : Option (OrdinalDate × List Char) :=
  matchDayThen (fun d r1 =>
    matchOrdSuffixThen (fun r2 =>
      if leadMatchCI " day of ".toList r2 then
        match wordPlus (r2.drop 8) with
        | none => none
        | some (w, r4) =>
          match r4 with
          | ',' :: r5 =>
            (year4 (r5.dropWhile isJsWs)).map (fun yr => (⟨w, d, yr.1⟩, yr.2))
          | _ => none
      else none) r1) s

/-- `content.matchAll(ordinalDateRegex)` (fuel as in `scanNumericF`). -/
def scanOrdinalF : Nat → List Char → List OrdinalDate
  | 0, _ => []
  | _ + 1, [] => []
  | fuel + 1, c :: cs =>
    match matchOrdinalAt (c :: cs) with
    | some (od, rest) => od :: scanOrdinalF fuel rest
    | none => scanOrdinalF fuel cs

def scanOrdinal (s : List Char) : List OrdinalDate := scanOrdinalF s.length s

/-- `monthNames.indexOf(word.toLowerCase())` (`none` for the source's -1). -/
def monthIdxOf (w : List Char) : Option Nat :=
  monthNames.findIdx? (fun m => m.toList == w.map jsLowerChar)

/-- `checkDateWithinSixMonths(content)` with the ambient clock made explicit:
numeric dates first (either the MM/DD/YYYY or the DD/MM/YYYY reading may put
the match in the window), then written dates, then ordinal-phrase dates; the
numeric and written stages look at the first 10 matches, the ordinal stage at
the first 5. -/
def checkDateWithinSixMonths (now : JsNow) (content : String) : Bool :=
  if content.length < 10 then false
  else
    let nowD := nowDays now
    let sixAgo := sixMonthsAgoDays now
    if ((scanNumeric content.toList).take 10).any (fun nd =>
        dateInWindow sixAgo nowD (jsMakeDate (nd.year : Int) ((nd.p1 : Int) - 1) (nd.p2 : Int)) ||
        dateInWindow sixAgo nowD (jsMakeDate (nd.year : Int) ((nd.p2 : Int) - 1) (nd.p1 : Int)))
    then true
    else if ((scanWritten content.toList).take 10).any (fun wd =>
        dateInWindow sixAgo nowD (jsMakeDate (wd.year : Int) (wd.monthIdx : Int) (wd.day : Int)))
    then true
    else if ((scanOrdinal content.toList).take 5).any (fun od =>
        match monthIdxOf od.monthWord with
        | some m => dateInWindow sixAgo nowD (jsMakeDate (od.year : Int) (m : Int) (od.day : Int))
        | none => false)
    then true
    else false

/-! ### Keyword / regex presence primitives of the rule sets

Each fixed regular expression of `route.js` is modelled by a dedicated
scanner with the same matching semantics; substring tests of `/i` patterns
run on the lowercased text with lowercase literals. -/

/-- Case-insensitive `sub ∈ s` for the `/lit1|lit2|…/i.test(content)`
patterns: any of the lowercase literals occurs in the lowercased content. -/
def ciContainsAny (content : String) (subs : List String) : Bool :=
  subs.any (fun sub => strContains (jsToLower content) sub)

/-- `\d{4}` then end of string (tail of the anchored bare-date pattern). -/
def bareDateTail2 : List Char → Bool
  | [a, b, c, d] => a.isDigit && b.isDigit && c.isDigit && d.isDigit
  | _ => false

/-- `\d{1,2}\/` at the head (greedy, with backtracking). -/
def bareDateSeg (s : List Char) : Option (List Char) :=
  (match s with
   | a :: b :: '/' :: rest => if a.isDigit && b.isDigit then some rest else none
   | _ => none)
  <|>
  (match s with
   | a :: '/' :: rest => if a.isDigit then some rest else none
   | _ => none)

/-- `/^\d{1,2}\/\d{1,2}\/\d{4}$/` — the whole line is a bare numeric date. -/
def isBareDateLine (line : String) : Bool :=
  match bareDateSeg line.toList with
  | some r1 =>
    match bareDateSeg r1 with
    | some r2 => bareDateTail2 r2
    | none => false
  | none => false

/-- `w₁\s+w₂\s+…\s+wₙ` at the head of `s` (case-insensitive literals). -/
def wordsWsSeq : List (List Char) → List Char → Bool
  | [], _ => true
  | [w], s => leadMatchCI w s
  | w :: ws, s =>
    leadMatchCI w s &&
      (match wsPlus (s.drop w.length) with
       | some r => wordsWsSeq ws r
       | none => false)

/-- `.test` of a whitespace-separated literal sequence, anywhere in `s`. -/
def wordsWsScan (ws : List (List Char)) : List Char → Bool
  | [] => false
  | c :: cs => wordsWsSeq ws (c :: cs) || wordsWsScan ws cs

/-- The `[\s#]*:?\s*\d+` tail of the serial-number pattern. -/
def serialTailOk (s : List Char) : Bool :=
  let r1 := s.dropWhile (fun c => isJsWs c || c == '#')
  let r2 := match r1 with
    | ':' :: t => t
    | _ => r1
  match r2.dropWhile isJsWs with
  | c :: _ => c.isDigit
  | [] => false

/-- `/serial[\s#]*:?\s*\d+/i.test(content)`. -/
def serialScan : List Char → Bool
  | [] => false
  | c :: cs =>
    (leadMatchCI "serial".toList (c :: cs) && serialTailOk ((c :: cs).drop 6)) || serialScan cs

/-- The tail of `/applicant\s+id[#:]?\s*:?\s*(.*?)(?=\r|\n|$)/i` after the
word `applicant`: the lazy capture expands to the rest of the line (`.`
cannot cross a line terminator and the lookahead first holds at one). -/
def applicantIdTail (s : List Char) : Option (List Char) :=
  match wsPlus s with
  | none => none
  | some r1 =>
    if leadMatchCI "id".toList r1 then
      let r2 := r1.drop 2
      let r3 := match r2 with
        | '#' :: t => t
        | ':' :: t => t
        | _ => r2
      let r4 := r3.dropWhile isJsWs
      let r5 := match r4 with
        | ':' :: t => t
        | _ => r4
      let r6 := r5.dropWhile isJsWs
      some (r6.takeWhile (fun c => c != '\r' && c != '\n'))
    else none

/-- Leftmost match of the applicant-id pattern: the captured group. -/
def applicantIdScan : List Char → Option (List Char)
  | [] => none
  | c :: cs =>
    match (if leadMatchCI "applicant".toList (c :: cs) then applicantIdTail ((c :: cs).drop 9)
           else none) with
    | some cap => some cap
    | none => applicantIdScan cs

/-- `/Marita\s+R\.\s+Sciarrotta|John\s+J\.\s+Ficara/i.test(content)`. -/
def sigNamesScan (s : List Char) : Bool :=
  wordsWsScan ["marita".toList, "r.".toList, "sciarrotta".toList] s ||
  wordsWsScan ["john".toList, "j.".toList, "ficara".toList] s

/-- `\s*([^\r\n]+)` after a name label: greedy whitespace, then the rest of
the line; at end of input the engine backtracks into the whitespace run and
captures its last non-terminator character, if any. -/
def captureAfterWs (s : List Char) : Option (List Char) :=
  let w := s.takeWhile isJsWs
  match s.dropWhile isJsWs with
  | c :: rest => some ((c :: rest).takeWhile (fun x => x != '\r' && x != '\n'))
  | [] =>
    match w.reverse.dropWhile (fun x => x == '\r' || x == '\n') with
    | c :: _ => some [c]
    | [] => none

/-- Leftmost match of `label\s*([^\r\n]+)` (case-insensitive): the capture. -/
def nameCaptureScan (label : List Char) : List Char → Option (List Char)
  | [] => none
  | c :: cs =>
    match (if leadMatchCI label (c :: cs) then captureAfterWs ((c :: cs).drop label.length)
           else none) with
    | some cap => some cap
    | none => nameCaptureScan label cs

/-- `[^was]` under `/i`: any character other than the letters w, a, s. -/
def notWasChar (c : Char) : Bool :=
  !(jsLowerChar c == 'w' || jsLowerChar c == 'a' || jsLowerChar c == 's')

/-- `([^was]+)was` with the group greedy: `k` counts the candidate group
lengths, longest first. -/
def aboveNamedTryK : Nat → List Char → Option (List Char)
  | 0, _ => none
  | k + 1, rest =>
    if leadMatchCI "was".toList (rest.drop (k + 1)) then some (rest.take (k + 1))
    else aboveNamedTryK k rest

/-- `\s+([^was]+)was` with `\s+` greedy: `j` counts the whitespace characters
consumed, most first (whitespace is itself in `[^was]`, so the engine
backtracks across the split). -/
def aboveNamedTryJ : Nat → List Char → Option (List Char)
  | 0, _ => none
  | j + 1, s =>
    let rest := s.drop (j + 1)
    match aboveNamedTryK (rest.takeWhile notWasChar).length rest with
    | some cap => some cap
    | none => aboveNamedTryJ j s

/-- Leftmost match of `/above-named\s+([^was]+)was/i`: the capture. -/
def aboveNamedScan : List Char → Option (List Char)
  | [] => none
  | c :: cs =>
    match (if leadMatchCI "above-named".toList (c :: cs) then
            let s := (c :: cs).drop 11
            aboveNamedTryJ (s.takeWhile isJsWs).length s
           else none) with
    | some cap => some cap
    | none => aboveNamedScan cs

/-- `cert\.\s*no\.` (second alternative of the certificate-number pattern). -/
def certNoSeq (s : List Char) : Bool :=
  leadMatchCI "cert.".toList s &&
    leadMatchCI "no.".toList ((s.drop 5).dropWhile isJsWs)

/-- `/certificate\s+number|cert\.\s*no\./i.test(content)`. -/
def certNumberScan : List Char → Bool
  | [] => false
  | c :: cs =>
    wordsWsSeq ["certificate".toList, "number".toList] (c :: cs) || certNoSeq (c :: cs) ||
    certNumberScan cs

/-- `/s\/?\/|_+\s*name/i.test(content)` (signature-mark heuristics): the
first alternative matches exactly an `s` followed by a slash (with or
without the optional second slash), the second an underscore run, optional
whitespace and the word `name`. -/
def sigMarkScan : List Char → Bool
  | [] => false
  | c :: cs =>
    (jsLowerChar c == 's' && (match cs with
      | '/' :: _ => true
      | _ => false)) ||
    (c == '_' && leadMatchCI "name".toList ((cs.dropWhile (fun x => x == '_')).dropWhile isJsWs)) ||
    sigMarkScan cs

/-- `date[d]?(\s*on)?:` at the head of `s` (case-insensitive, greedy
optionals with the backtracking the pattern admits). -/
def dateColonSeq (s : List Char) : Bool :=
  leadMatchCI "date".toList s &&
    (let r1 := s.drop 4
     let r2 := match r1 with
       | c :: t => if jsLowerChar c == 'd' then t else r1
       | [] => r1
     (let r3 := r2.dropWhile isJsWs
      leadMatchCI "on".toList r3 &&
        (match r3.drop 2 with
         | ':' :: _ => true
         | _ => false)) ||
     (match r2 with
      | ':' :: _ => true
      | _ => false))

/-- `.test` of `date[d]?(\s*on)?:` anywhere. -/
def dateColonScan : List Char → Bool
  | [] => false
  | c :: cs => dateColonSeq (c :: cs) || dateColonScan cs

/-- The numeric-date separator class `[\/\-]` of the presence pattern. -/
def isDashSep (c : Char) : Bool := c == '/' || c == '-'

/-- `(\d{1,2})[\/\-]\d{2}` — the second group and the first two year digits
of the presence pattern (`\d{2,4}` needs only two digits to exist). -/
def numPresTail (s : List Char) : Bool :=
  (match s with
   | a :: b :: c :: d :: e :: _ => a.isDigit && b.isDigit && isDashSep c && d.isDigit && e.isDigit
   | _ => false)
  ||
  (match s with
   | a :: b :: c :: d :: _ => a.isDigit && isDashSep b && c.isDigit && d.isDigit
   | _ => false)

/-- `\d{1,2}[\/\-]\d{1,2}[\/\-]\d{2,4}` at the head of `s`. -/
def numPresAt (s : List Char) : Bool :=
  (match s with
   | a :: b :: c :: rest => a.isDigit && b.isDigit && isDashSep c && numPresTail rest
   | _ => false)
  ||
  (match s with
   | a :: b :: rest => a.isDigit && isDashSep b && numPresTail rest
   | _ => false)

/-- `/\d{1,2}[\/\-]\d{1,2}[\/\-]\d{2,4}/.test(content)`. -/
def numPresenceScan : List Char → Bool
  | [] => false
  | c :: cs => numPresAt (c :: cs) || numPresenceScan cs

/-- `/\d{4}/.test(content)` — four consecutive digits anywhere. -/
def fourDigitScan : List Char → Bool
  | a :: b :: c :: d :: rest =>
    (a.isDigit && b.isDigit && c.isDigit && d.isDigit) || fourDigitScan (b :: c :: d :: rest)
  | _ => false

/-- `is` somewhere later on the same line (tail of `/purpose.*is/i`; the dot
does not cross line terminators). -/
def lineHasIs : List Char → Bool
  | [] => false
  | c :: cs =>
    if c == '\r' || c == '\n' then false
    else leadMatchCI "is".toList (c :: cs) || lineHasIs cs

/-- `/purpose.*is/i.test(contentLower)`. -/
def purposeIsScan : List Char → Bool
  | [] => false
  | c :: cs =>
    (leadMatchCI "purpose".toList (c :: cs) && lineHasIs ((c :: cs).drop 7)) || purposeIsScan cs

/-- `(duties|responsibilities|liability)` at the head. -/
def dutiesWordAt (s : List Char) : Bool :=
  leadMatchCI "duties".toList s || leadMatchCI "responsibilities".toList s ||
  leadMatchCI "liability".toList s

/-- `.{1,30}(duties|…)`: consume one to `n` non-terminator characters and
find the word right after the gap. -/
def dutiesGapScan : Nat → List Char → Bool
  | 0, _ => false
  | n + 1, s =>
    match s with
    | c :: cs =>
      if c == '\r' || c == '\n' then false
      else dutiesWordAt cs || dutiesGapScan n cs
    | [] => false

/-- `/director.{1,30}(duties|responsibilities|liability)/i.test(content)`. -/
def directorDutiesScan : List Char → Bool
  | [] => false
  | c :: cs =>
    (leadMatchCI "director".toList (c :: cs) && dutiesGapScan 30 ((c :: cs).drop 8)) ||
    directorDutiesScan cs

/-- `\d+` greedy: the rest after a nonempty digit run. -/
def digitsPlus : List Char → Option (List Char)
  | c :: cs => if c.isDigit then some (cs.dropWhile Char.isDigit) else none
  | [] => none

/-- `page\s+\d+\s+of\s+\d+` at the head. -/
def pageNumSeq (s : List Char) : Bool :=
  leadMatchCI "page".toList s &&
    (match wsPlus (s.drop 4) with
     | some r1 =>
       match digitsPlus r1 with
       | some r2 =>
         match wsPlus r2 with
         | some r3 =>
           leadMatchCI "of".toList r3 &&
             (match wsPlus (r3.drop 2) with
              | some r4 => (digitsPlus r4).isSome
              | none => false)
         | none => false
       | none => false
     | none => false)

/-- `/page\s+\d+\s+of\s+\d+/i.test(content)`. -/
def pageNumScan : List Char → Bool
  | [] => false
  | c :: cs => pageNumSeq (c :: cs) || pageNumScan cs

/-- `\d+a:\d+-\d+` at the head (the NJ statute format `14A:X-X`). -/
def statRefSeq (s : List Char) : Bool :=
  match s with
  | c :: _ =>
    c.isDigit &&
      (match s.dropWhile Char.isDigit with
       | x :: ':' :: r2 =>
         jsLowerChar x == 'a' &&
           (match r2 with
            | y :: _ =>
              y.isDigit &&
                (match r2.dropWhile Char.isDigit with
                 | '-' :: z :: _ => z.isDigit
                 | _ => false)
            | [] => false)
       | _ => false)
  | [] => false

/-- `/\d+a:\d+-\d+/i.test(content)`. -/
def statRefScan : List Char → Bool
  | [] => false
  | c :: cs => statRefSeq (c :: cs) || statRefScan cs

/-- `section\s+\d+a:` at the head. -/
def sectionStatSeq (s : List Char) : Bool :=
  leadMatchCI "section".toList s &&
    (match wsPlus (s.drop 7) with
     | some r1 =>
       (match r1 with
        | c :: _ => c.isDigit
        | [] => false) &&
         (match r1.dropWhile Char.isDigit with
          | x :: ':' :: _ => jsLowerChar x == 'a'
          | _ => false)
     | none => false)

/-- `/section\s+\d+a:/i.test(content)`. -/
def sectionStatScan : List Char → Bool
  | [] => false
  | c :: cs => sectionStatSeq (c :: cs) || sectionStatScan cs

/-- `ein\s*:` at the head. -/
def einColonSeq (s : List Char) : Bool :=
  leadMatchCI "ein".toList s &&
    (match (s.drop 3).dropWhile isJsWs with
     | ':' :: _ => true
     | _ => false)

/-- `/ein\s*:/i.test(contentLower)`. -/
def einColonScan : List Char → Bool
  | [] => false
  | c :: cs => einColonSeq (c :: cs) || einColonScan cs

/-! ### Data model: collaborator output and rule-set outcome -/

/-- A page of the analyzed document (only its word list is consumed, and only
by the response aggregation). -/
structure Page where
  words : List String
deriving DecidableEq

/-- A text span of a detected key/value pair. -/
structure KVSpan where
  content : String
deriving DecidableEq

/-- One key/value pair from the document-analysis collaborator; either side
may be absent. -/
structure KVPair where
  key : Option KVSpan
  value : Option KVSpan
deriving DecidableEq

/-- `pair.key && pair.key.content && pred(pair.key.content)`. -/
def kvKeyMatches (pred : String → Bool) (p : KVPair) : Bool :=
  match p.key with
  | some k => k.content != "" && pred k.content
  | none => false

/-- The caller-supplied form fields (absent fields arrive as `""`). -/
structure FormFields where
  organizationName : String
  ownerName : String
  fein : String
deriving DecidableEq

/-- A rule set's outcome.  Rule sets that return no
`detectedOrganizationName` property are modelled with `none`. -/
structure ValidationOutcome where
  missingElements : List String
  suggestedActions : List String
  detectedOrganizationName : Option String := none
deriving DecidableEq

/-- The two-way lowercase-trimmed containment mismatch test used by the
rule sets when both an entered and a detected organization name exist. -/
def orgNamesSimpleMismatch (fieldName detected : String) : Bool :=
  let orgNameLower := jsTrim (jsToLower fieldName)
  let detectedOrgNameLower := jsTrim (jsToLower detected)
  !(strContains detectedOrgNameLower orgNameLower) &&
    !(strContains orgNameLower detectedOrgNameLower)

/-! ### Organization-name detection heuristics of the rule sets -/

/-- The header/metadata exclusions of the tax-clearance organization-name
line scan. -/
def orgLineExcluded (line : String) : Bool :=
  let ll := jsToLower line
  strContains ll "state of" || strContains ll "department of" ||
  strContains ll "division of" || strContains ll "governor" || strStartsWith ll "attn:"

/-- The break-on-confidence loop over the candidate lines above the anchor
line: remember the latest plausible line, stop at an all-caps line longer
than 5 characters. -/
def orgScanLoop (acc : Option String) : List String → Option String
  | [] => acc
  | line :: rest =>
    let l := jsTrim line
    if l != "" && decide (3 < l.length) && !(isBareDateLine l) then
      if !(orgLineExcluded l) then
        if l == jsToUpper l && decide (5 < l.length) then some l
        else orgScanLoop (some l) rest
      else orgScanLoop acc rest
    else orgScanLoop acc rest

/-- Tax-clearance organization-name detection: scan up to five lines above
the `BUSINESS ASSISTANCE OR INCENTIVE` / `CLEARANCE CERTIFICATE` line, then
fall back to the key/value pairs. -/
def detectTaxOrgName (content : String) (keyValuePairs : List KVPair) : Option String :=
  let lines := splitNl content
  let fromLines : Option String :=
    match lines.findIdx? (fun line =>
        strContains line "BUSINESS ASSISTANCE OR INCENTIVE" ||
        strContains line "CLEARANCE CERTIFICATE") with
    | some i => if 0 < i then orgScanLoop none ((lines.drop (i - 5)).take (i - (i - 5))) else none
    | none => none
  if jsTruthy fromLines then fromLines
  else
    match keyValuePairs.find? (kvKeyMatches (fun k =>
        strContains (jsToLower k) "taxpayer name" || strContains (jsToLower k) "applicant" ||
        strContains (jsToLower k) "business name")) with
    | some p =>
      match p.value with
      | some v => some v.content
      | none => fromLines
    | none => fromLines

/-- Certificate-of-formation organization-name detection: the three name
regexes (first match wins), then the `above-named … was` pattern, then an
exact `name:` key/value lookup. -/
def detectFormationName (content : String) (keyValuePairs : List KVPair) : Option String :=
  let nameCap : Option (List Char) :=
    match nameCaptureScan "name:".toList content.toList with
    | some cap => some cap
    | none =>
      match nameCaptureScan "name of domestic corporation:".toList content.toList with
      | some cap => some cap
      | none => nameCaptureScan "the name of the limited liability company is".toList content.toList
  let m1 : Option String :=
    match nameCap with
    | some cap => if jsTrim (String.mk cap) != "" then some (jsTrim (String.mk cap)) else none
    | none => none
  if jsTruthy m1 then m1
  else
    let m2 : Option String :=
      match aboveNamedScan content.toList with
      | some cap => if jsTrim (String.mk cap) != "" then some (jsTrim (String.mk cap)) else none
      | none => none
    if jsTruthy m2 then m2
    else
      match keyValuePairs.find? (kvKeyMatches (fun k => jsTrim (jsToLower k) == "name:")) with
      | some p =>
        match p.value with
        | some v => some v.content
        | none => none
      | none => none

/-- Good-standing (long form) organization-name detection: the first line
longer than 3 characters after the long-form header line. -/
def detectGoodStandingName (content : String) : Option String :=
  let lines := splitNl content
  match lines.findIdx? (fun l =>
      strContains l "LONG FORM STANDING WITH OFFICERS AND DIRECTORS" ||
      strContains l "Long Form Standing with Officers and Directors") with
  | some i =>
    if i + 1 < lines.length then
      (lines.drop (i + 1)).findSome? (fun l =>
        let t := jsTrim l
        if 3 < t.length then some t else none)
    else none
  | none => none

/-- `fein.slice(-3)` (only used under a `fein.length >= 3` guard). -/
def feinLastThree (fein : String) : String :=
  String.mk (fein.toList.drop (fein.length - 3))

/-- The `Applicant ID` detection shared by the two tax-clearance rule sets:
the applicant-id regex capture (trimmed, when nonempty) or an
`applicant id` / `id #` key/value lookup. -/
def detectApplicantId (content : String) (keyValuePairs : List KVPair) : Option String :=
  let fromRegex : Option String :=
    match applicantIdScan content.toList with
    | some cap => if cap != [] then some (jsTrim (String.mk cap)) else none
    | none => none
  if jsTruthy fromRegex then fromRegex
  else
    match keyValuePairs.find? (kvKeyMatches (fun k =>
        strContains (jsToLower k) "applicant id" || strContains (jsToLower k) "id #")) with
    | some p =>
      match p.value with
      | some v => some v.content
      | none => fromRegex
    | none => fromRegex

/-- The FEIN reconciliation check: present FEIN of length ≥ 3, a truthy
detected id, and the FEIN's last three digits not occurring in it. -/
def feinMismatch (fein : String) (detectedId : Option String) : Bool :=
  fein != "" && decide (3 ≤ fein.length) && jsTruthy detectedId &&
    !(strContains (detectedId.getD "") (feinLastThree fein))

/-- The organization-name mismatch condition shared by the rule sets. -/
def orgNameCheckFails (fieldName : String) (detected : Option String) : Bool :=
  fieldName != "" && jsTruthy detected && orgNamesSimpleMismatch fieldName (detected.getD "")

/-! ### The per-document-type rule sets of `route.js` -/

/-- One conditional checklist entry: the JS `if (cond) missingElements.push(...)`
pattern as a list fragment. -/
def onlyIf (b : Bool) (msgs : List String) : List String := if b then msgs else []

/-- `validateTaxClearanceOnline`. -/
def validateTaxClearanceOnline (now : JsNow) (content contentLower : String) (pages : List Page)
    (keyValuePairs : List KVPair) (formFields : FormFields) : ValidationOutcome :=
  let _ := pages
  let detectedOrganizationName := detectTaxOrgName content keyValuePairs
  let nameBad := orgNameCheckFails formFields.organizationName detectedOrganizationName
  let hasSerial := strContains contentLower "serial#" || strContains contentLower "serial #" ||
    strContains contentLower "serial number" || serialScan content.toList
  let detectedId := detectApplicantId content keyValuePairs
  let idBad := feinMismatch formFields.fein detectedId
  let hasRejectedAgency :=
    ["department of environmental protection", "environmental protection"].any
      (fun agency => strContains contentLower agency)
  let isDateWithinSixMonths := checkDateWithinSixMonths now content
  let hasValidityPeriod := strContains content "valid for 180 days" ||
    strContains content "days from the date" ||
    strContains (jsToLower content) "expiration" || strContains (jsToLower content) "expiry"
  let hasSignature := strContains content "Acting Director" ||
    strContains content "Director of Taxation" || sigNamesScan content.toList
  { missingElements :=
      (onlyIf (nameBad) ["Organization name doesn\x27t match the one on the certificate"]) ++
      (onlyIf (!(strContains contentLower "clearance certificate")) ["Required text: \x27Clearance Certificate\x27"]) ++
      (onlyIf (!hasSerial) ["Required element: Serial Number"]) ++
      (onlyIf (!(strContains contentLower "state of new jersey") &&
          !(strContains contentLower "new jersey")) ["Required text: \x27State of New Jersey\x27"]) ++
      (onlyIf (!(strContains contentLower "department of treasury") &&
          !(strContains contentLower "dept of treasury") &&
          !(strContains contentLower "department of the treasury") &&
          !(strContains contentLower "dept. of treasury")) ["Required element: Department of Treasury"]) ++
      (onlyIf (!(strContains contentLower "division of taxation")) ["Required element: Division of Taxation"]) ++
      (onlyIf (idBad) ["FEIN last three digits don\x27t match the Applicant ID on the certificate"]) ++
      (onlyIf (hasRejectedAgency) ["Agency error: Document contains reference to Department of Environmental Protection"]) ++
      (onlyIf (!isDateWithinSixMonths) ["Certificate must be dated within the past six months"]) ++
      (onlyIf (!hasValidityPeriod) ["Certificate validity period"]) ++
      (onlyIf (!hasSignature) ["Authorized signature"]),
    suggestedActions :=
      (onlyIf (nameBad) ["Verify that the correct organization name was entered"]) ++
      (onlyIf (!hasSerial) ["Verify this is an online-generated certificate with a Serial Number"]) ++
      (onlyIf (idBad) ["Verify that the correct FEIN was entered"]) ++
      (onlyIf (hasRejectedAgency) ["This agency is not accepted. Please provide a certificate for a different agency"]) ++
      (onlyIf (!isDateWithinSixMonths) ["Obtain a more recent tax clearance certificate"]) ++
      (onlyIf (!hasValidityPeriod) ["Verify the certificate indicates its validity period"]) ++
      (onlyIf (!hasSignature) ["Verify the certificate has been signed by an authorized official"]),
    detectedOrganizationName := detectedOrganizationName }

/-- `validateTaxClearanceManual`. -/
def validateTaxClearanceManual (now : JsNow) (content contentLower : String) (pages : List Page)
    (keyValuePairs : List KVPair) (formFields : FormFields) : ValidationOutcome :=
  let _ := pages
  let detectedOrganizationName := detectTaxOrgName content keyValuePairs
  let nameBad := orgNameCheckFails formFields.organizationName detectedOrganizationName
  let detectedId := detectApplicantId content keyValuePairs
  let idBad := feinMismatch formFields.fein detectedId
  let hasRejectedAgency :=
    ["department of environmental protection", "environmental protection"].any
      (fun agency => strContains contentLower agency)
  let isDateWithinSixMonths := checkDateWithinSixMonths now content
  let hasValidityPeriod := strContains content "valid for 180 days" ||
    strContains content "days from the date" ||
    strContains (jsToLower content) "expiration" || strContains (jsToLower content) "expiry"
  let hasSignature := strContains content "Acting Director" ||
    strContains content "Director of Taxation" || sigNamesScan content.toList
  { missingElements :=
      (onlyIf (nameBad) ["Organization name doesn\x27t match the one on the certificate"]) ++
      (onlyIf (!(strContains contentLower "clearance certificate")) ["Required text: \x27Clearance Certificate\x27"]) ++
      (onlyIf (!(strContains contentLower "state of new jersey")) ["Required text: \x27State of New Jersey\x27"]) ++
      (onlyIf (!(strContains contentLower "batc")) ["Required text: \x27BATC Manual\x27"]) ++
      (onlyIf (!(strContains contentLower "department of treasury") &&
          !(strContains contentLower "dept of treasury") &&
          !(strContains contentLower "department of the treasury") &&
          !(strContains contentLower "dept. of treasury")) ["Required element: Department of Treasury"]) ++
      (onlyIf (!(strContains contentLower "division of taxation")) ["Required element: Division of Taxation"]) ++
      (onlyIf (idBad) ["FEIN last three digits don\x27t match the Applicant ID on the certificate"]) ++
      (onlyIf (hasRejectedAgency) ["Agency error: Document contains reference to Department of Environmental Protection"]) ++
      (onlyIf (!isDateWithinSixMonths) ["Certificate must be dated within the past six months"]) ++
      (onlyIf (!hasValidityPeriod) ["Certificate validity period"]) ++
      (onlyIf (!hasSignature) ["Authorized signature"]),
    suggestedActions :=
      (onlyIf (nameBad) ["Verify that the correct organization name was entered"]) ++
      (onlyIf (!(strContains contentLower "batc")) ["Verify this is a manually generated tax clearance certificate"]) ++
      (onlyIf (idBad) ["Verify that the correct FEIN was entered"]) ++
      (onlyIf (hasRejectedAgency) ["This agency is not accepted. Please provide a certificate for a different agency"]) ++
      (onlyIf (!isDateWithinSixMonths) ["Obtain a more recent tax clearance certificate"]) ++
      (onlyIf (!hasValidityPeriod) ["Verify the certificate indicates its validity period"]) ++
      (onlyIf (!hasSignature) ["Verify the certificate has been signed by an authorized official"]),
    detectedOrganizationName := detectedOrganizationName }

/-- `validateCertificateAlternativeName`. -/
def validateCertificateAlternativeName (content contentLower : String) (pages : List Page)
    (keyValuePairs : List KVPair) : ValidationOutcome :=
  let _ := (content, pages, keyValuePairs)
  let hasTreasuryDateStamp := strContains contentLower "filed" &&
    strContains contentLower "state treasurer"
  let hasDivisionOfRevenue := strContains contentLower "division of revenue"
  { missingElements :=
      (onlyIf (!(strContains contentLower "registration") || !(strContains contentLower "alternate name")
      ) ["Required text: \x27Certificate of Alternate Name\x27"]) ++
      (onlyIf (!hasTreasuryDateStamp) ["Date stamp by Department of Treasury"]) ++
      (onlyIf (!hasDivisionOfRevenue) ["Division of Revenue"]),
    suggestedActions :=
      (onlyIf (!hasTreasuryDateStamp) ["Verify document has been properly stamped by the Department of Treasury"]) ++
      (onlyIf (!hasDivisionOfRevenue) ["Verify document contains \x27Division of Revenue\x27"]),
    detectedOrganizationName := none }

/-- `validateCertificateOfTradeName`. -/
def validateCertificateOfTradeName (content contentLower : String) (pages : List Page)
    (keyValuePairs : List KVPair) : ValidationOutcome :=
  let _ := (content, pages, keyValuePairs)
  { missingElements :=
      (onlyIf (!(strContains contentLower "certificate of trade name")) ["Required text: \x27Certificate of Trade Name\x27"]),
    suggestedActions := [],
    detectedOrganizationName := none }

/-- `validateCertificateOfFormation`. -/
def validateCertificateOfFormation (content contentLower : String) (pages : List Page)
    (keyValuePairs : List KVPair) (formFields : FormFields) : ValidationOutcome :=
  let _ := pages
  let detectedOrganizationName := detectFormationName content keyValuePairs
  let nameBad := orgNameCheckFails formFields.organizationName detectedOrganizationName
  let hasEntityID := ciContainsAny content
    ["identification number", "entity id", "entity number", "business id number", "filed number"]
  let hasFilingDate := ciContainsAny content
    ["duly filed", "filed in accordance", "date", "filed on", "filing date"]
  let hasSignature := ciContainsAny content ["signature", "signed", "authorized representative"] ||
    ciContainsAny content ["state treasurer", "treasurer"]
  let hasVerificationInfo := ciContainsAny content
    ["verify this certificate", "verification", "certification"]
  let hasAgent := wordsWsScan ["registered".toList, "agent".toList] content.toList
  let hasOffice := wordsWsScan ["registered".toList, "office".toList] content.toList
  { missingElements :=
      (onlyIf (nameBad) ["Organization name doesn\x27t match the one on the certificate"]) ++
      (onlyIf (!(strContains contentLower "certificate of formation")) ["Required text: \x27Certificate of Formation\x27"]) ++
      (onlyIf (!(strContains contentLower "new jersey department of the treasury") &&
          !(strContains contentLower "nj department of the treasury") &&
          !(strContains contentLower "division of revenue")) ["New Jersey Department of the Treasury/Division of Revenue"]) ++
      (onlyIf (!hasEntityID) ["Entity ID/identification number"]) ++
      (onlyIf (!hasFilingDate) ["Filing date"]) ++
      (onlyIf (!hasSignature) ["Signature of authorized state official"]) ++
      (onlyIf (!hasVerificationInfo) ["Certificate verification information"]) ++
      (onlyIf (!hasAgent) ["Registered agent section"]) ++
      (onlyIf (!hasOffice) ["Registered office section"]),
    suggestedActions :=
      (onlyIf (nameBad) ["Verify that the correct organization name was entered"]) ++
      (onlyIf (!(strContains contentLower "new jersey department of the treasury") &&
          !(strContains contentLower "nj department of the treasury") &&
          !(strContains contentLower "division of revenue")) ["Verify certificate is issued by the NJ Department of the Treasury"]) ++
      (onlyIf (!hasEntityID) ["Verify document shows entity identification number"]) ++
      (onlyIf (!hasFilingDate) ["Verify document shows filing date"]) ++
      (onlyIf (!hasSignature) ["Verify document has been signed by an authorized state official"]) ++
      (onlyIf (!hasVerificationInfo) ["Verify document contains certificate verification information"]) ++
      (onlyIf (!hasAgent) ["Verify document contains registered agent information"]) ++
      (onlyIf (!hasOffice) ["Verify document contains registered office information"]),
    detectedOrganizationName := detectedOrganizationName }

/-- `validateCertificateOfFormationIndependent`. -/
def validateCertificateOfFormationIndependent (content contentLower : String) (pages : List Page)
    (keyValuePairs : List KVPair) (formFields : FormFields) : ValidationOutcome :=
  let _ := pages
  let detectedOrganizationName := detectFormationName content keyValuePairs
  let nameBad := orgNameCheckFails formFields.organizationName detectedOrganizationName
  let hasEntityID := ciContainsAny content
    ["identification number", "entity id", "entity number", "business id number", "filed number"]
  let hasFilingDate := ciContainsAny content
    ["duly filed", "filed in accordance", "date", "filed on", "filing date"]
  let hasSignature := ciContainsAny content ["signature", "signed", "authorized representative"] ||
    ciContainsAny content ["state treasurer", "treasurer"]
  let hasVerificationInfo := ciContainsAny content
    ["verify this certificate", "verification", "certification"]
  let hasAgent := wordsWsScan ["registered".toList, "agent".toList] content.toList
  let hasOffice := wordsWsScan ["registered".toList, "office".toList] content.toList
  { missingElements :=
      (onlyIf (nameBad) ["Organization name doesn\x27t match the one on the certificate"]) ++
      (onlyIf (!(strContains contentLower "certificate of formation")) ["Required text: \x27Certificate of Formation\x27"]) ++
      (onlyIf (!hasEntityID) ["Entity ID/identification number"]) ++
      (onlyIf (!hasFilingDate) ["Filing date"]) ++
      (onlyIf (!hasSignature) ["Signature of authorized state official"]) ++
      (onlyIf (!hasVerificationInfo) ["Certificate verification information"]) ++
      (onlyIf (!hasAgent) ["Registered agent section"]) ++
      (onlyIf (!hasOffice) ["Registered office section"]),
    suggestedActions :=
      (onlyIf (nameBad) ["Verify that the correct organization name was entered"]) ++
      (onlyIf (!hasEntityID) ["Verify document shows entity identification number"]) ++
      (onlyIf (!hasFilingDate) ["Verify document shows filing date"]) ++
      (onlyIf (!hasSignature) ["Verify document has been signed by an authorized state official"]) ++
      (onlyIf (!hasVerificationInfo) ["Verify document contains certificate verification information"]) ++
      (onlyIf (!hasAgent) ["Verify document contains registered agent information"]) ++
      (onlyIf (!hasOffice) ["Verify document contains registered office information"]),
    detectedOrganizationName := detectedOrganizationName }

/-- `validateCertificateOfGoodStandingLong`. -/
def validateCertificateOfGoodStandingLong (content contentLower : String) (pages : List Page)
    (keyValuePairs : List KVPair) (formFields : FormFields) : ValidationOutcome :=
  let _ := (pages, keyValuePairs)
  let detectedOrganizationName := detectGoodStandingName content
  let nameBad := orgNameCheckFails formFields.organizationName detectedOrganizationName
  let hasLongFormTitle := strContains contentLower "long form standing" ||
    strContains contentLower "long form certificate" ||
    strContains contentLower "with officers and directors"
  let hasGoodStanding := strContains contentLower "good standing" &&
    strContains contentLower "active"
  let hasTreasury := strContains contentLower "department of treasury" ||
    strContains contentLower "dept. of treasury" || strContains contentLower "dept of treasury" ||
    strContains contentLower "treasurer of the state"
  let hasDivision := strContains contentLower "division of revenue & enterprise services" ||
    strContains contentLower "division of revenue and enterprise services"
  let hasOfficersDirectors := strContains contentLower "officers" &&
    strContains contentLower "directors"
  let hasRegisteredInfo := strContains contentLower "registered agent" ||
    strContains contentLower "registered office"
  let hasStateSeal := strContains contentLower "official seal" ||
    strContains contentLower "seal at trenton" || strContains contentLower "great seal" ||
    strContains contentLower "testimony whereof"
  let hasTreasurerSignature := strContains contentLower "state treasurer" ||
    strContains contentLower "acting state treasurer" ||
    strContains contentLower "treasurer of the state"
  let hasCertificateNumber := certNumberScan content.toList
  let hasVerificationURL := strContains contentLower "verify this certificate" ||
    strContains contentLower "http" || strContains contentLower "www"
  { missingElements :=
      (onlyIf (nameBad) ["Organization name doesn\x27t match the one on the certificate"]) ++
      (onlyIf (!hasLongFormTitle) ["Long Form Standing declaration"]) ++
      (onlyIf (!hasGoodStanding) ["Active and good standing status"]) ++
      (onlyIf (!hasTreasury) ["Department of Treasury reference"]) ++
      (onlyIf (!hasDivision) ["Division of Revenue & Enterprise Services"]) ++
      (onlyIf (!hasOfficersDirectors) ["Officers/Directors information"]) ++
      (onlyIf (!hasRegisteredInfo) ["Registered agent/office information"]) ++
      (onlyIf (!hasStateSeal) ["State seal"]) ++
      (onlyIf (!hasTreasurerSignature) ["State Treasurer signature"]) ++
      (onlyIf (!hasCertificateNumber) ["Certificate number"]) ++
      (onlyIf (!hasVerificationURL) ["Verification URL"]),
    suggestedActions :=
      (onlyIf (nameBad) ["Verify that the correct organization name was entered"]) ++
      (onlyIf (!hasLongFormTitle) ["Verify this is a Long Form Certificate of Good Standing with Officers and Directors"]) ++
      (onlyIf (!hasGoodStanding) ["Verify entity is active and in good standing with the State of NJ"]) ++
      (onlyIf (!hasTreasury) ["Verify certificate is issued by NJ Department of Treasury"]) ++
      (onlyIf (!hasDivision) ["Verify certificate mentions Division of Revenue & Enterprise Services"]) ++
      (onlyIf (!hasOfficersDirectors) ["Verify the certificate includes information about officers and directors"]) ++
      (onlyIf (!hasRegisteredInfo) ["Verify the certificate includes registered agent and office information"]) ++
      (onlyIf (!hasStateSeal) ["Verify the certificate has the State seal affixed"]) ++
      (onlyIf (!hasTreasurerSignature) ["Verify the certificate is signed by the State Treasurer"]) ++
      (onlyIf (!hasCertificateNumber) ["Verify the certificate has a certificate number"]) ++
      (onlyIf (!hasVerificationURL) ["Verify the certificate includes a verification URL"]),
    detectedOrganizationName := detectedOrganizationName }

/-- `validateCertificateOfGoodStandingShort`. -/
def validateCertificateOfGoodStandingShort (content contentLower : String) (pages : List Page)
    (keyValuePairs : List KVPair) (formFields : FormFields) : ValidationOutcome :=
  let _ := (content, pages, keyValuePairs, formFields)
  let hasGoodStanding := strContains contentLower "good standing" &&
    strContains contentLower "active"
  let hasTreasury := strContains contentLower "department of treasury" ||
    strContains contentLower "dept. of treasury" || strContains contentLower "dept of treasury" ||
    strContains contentLower "treasurer of the state"
  let hasDivision := strContains contentLower "division of revenue & enterprise services" ||
    strContains contentLower "division of revenue and enterprise services"
  let hasStateSeal := strContains contentLower "official seal" ||
    strContains contentLower "seal at trenton" || strContains contentLower "great seal" ||
    strContains contentLower "testimony whereof"
  let hasTreasurerSignature := strContains contentLower "state treasurer" ||
    strContains contentLower "acting state treasurer" ||
    strContains contentLower "treasurer of the state"
  { missingElements :=
      (onlyIf (!hasGoodStanding) ["Active and good standing status"]) ++
      (onlyIf (!hasTreasury) ["Department of Treasury reference"]) ++
      (onlyIf (!hasDivision) ["Division of Revenue & Enterprise Services"]) ++
      (onlyIf (!hasStateSeal) ["State seal"]) ++
      (onlyIf (!hasTreasurerSignature) ["State Treasurer signature"]),
    suggestedActions :=
      (onlyIf (!hasGoodStanding) ["Verify entity is active and in good standing with the State of NJ"]) ++
      (onlyIf (!hasTreasury) ["Verify certificate is issued by NJ Department of Treasury"]) ++
      (onlyIf (!hasDivision) ["Verify certificate mentions Division of Revenue & Enterprise Services"]) ++
      (onlyIf (!hasStateSeal) ["Verify the certificate has the State seal affixed"]) ++
      (onlyIf (!hasTreasurerSignature) ["Verify the certificate is signed by the State Treasurer"]),
    detectedOrganizationName := none }

/-- `validateOperatingAgreement`. -/
def validateOperatingAgreement (content contentLower : String) (pages : List Page)
    (keyValuePairs : List KVPair) (formFields : FormFields) : ValidationOutcome :=
  let _ := (pages, keyValuePairs, formFields)
  let hasSignatures := strContains contentLower "signature" ||
    strContains contentLower "signed by" || strContains contentLower "undersigned" ||
    sigMarkScan content.toList
  let hasDate := dateColonScan (jsToLower content).toList ||
    strContains (jsToLower content) "dated" || strContains (jsToLower content) "executed on" ||
    numPresenceScan content.toList || fourDigitScan content.toList
  let hasFormationLanguage := strContains contentLower "certificate of formation" ||
    strContains contentLower "articles of organization" ||
    (strContains contentLower "form" && strContains contentLower "limited liability company")
  let hasBusinessPurpose := strContains contentLower "business purpose" &&
    (strContains contentLower "purpose of the company" || purposeIsScan contentLower.toList)
  let hasNewJersey := strContains contentLower "new jersey" || strContains contentLower "nj"
  { missingElements :=
      (onlyIf (!(strContains contentLower "operating agreement")) ["Required text: \x27Operating Agreement\x27"]) ++
      (onlyIf (!hasSignatures) ["Member signatures"]) ++
      (onlyIf (!hasDate) ["Date"]) ++
      (onlyIf (!hasFormationLanguage) ["LLC formation language"]) ++
      (onlyIf (!hasBusinessPurpose) ["Business purpose section"]) ++
      (onlyIf (!hasNewJersey) ["New Jersey state reference"]),
    suggestedActions :=
      (onlyIf (!hasSignatures) ["Verify the operating agreement is signed by all members"]) ++
      (onlyIf (!hasDate) ["Verify the operating agreement is dated"]) ++
      (onlyIf (!hasFormationLanguage) ["Verify the agreement contains references to LLC formation documents"]) ++
      (onlyIf (!hasBusinessPurpose) ["Verify the agreement defines a business purpose"]) ++
      (onlyIf (!hasNewJersey) ["Verify the agreement references New Jersey state law"]),
    detectedOrganizationName := none }

/-- `validateCertificateOfIncorporation`. -/
def validateCertificateOfIncorporation (content contentLower : String) (pages : List Page)
    (keyValuePairs : List KVPair) (formFields : FormFields) : ValidationOutcome :=
  let _ := (content, pages, keyValuePairs, formFields)
  let hasCertificateTitle := strContains contentLower "certificate of inc" ||
    strContains contentLower "certificate of incorporation"
  let hasTreasury := strContains contentLower "new jersey department of the treasury" ||
    strContains contentLower "nj department of the treasury"
  let hasDivision := strContains contentLower "division of revenue and enterprise services" ||
    strContains contentLower "division of revenue & enterprise services"
  let hasDirectors := strContains contentLower "board of directors" ||
    strContains contentLower "directors:"
  let hasIncorporators := strContains contentLower "incorporators:" ||
    strContains contentLower "incorporator"
  let hasStateSeal := strContains contentLower "official seal" ||
    strContains contentLower "seal at trenton" || strContains contentLower "testimony whereof" ||
    (strContains contentLower "seal" && strContains contentLower "affixed")
  { missingElements :=
      (onlyIf (!hasCertificateTitle) ["Required text: \x27Certificate of Incorporation\x27"]) ++
      (onlyIf (!hasTreasury) ["New Jersey Department of the Treasury"]) ++
      (onlyIf (!hasDivision) ["Division of Revenue & Enterprise Services"]) ++
      (onlyIf (!hasDirectors) ["Board of Directors listing"]) ++
      (onlyIf (!hasIncorporators) ["Incorporators section"]) ++
      (onlyIf (!hasStateSeal) ["State seal"]),
    suggestedActions :=
      (onlyIf (!hasTreasury) ["Verify certificate is issued by the NJ Department of Treasury"]) ++
      (onlyIf (!hasDivision) ["Verify certificate mentions Division of Revenue & Enterprise Services"]) ++
      (onlyIf (!hasDirectors) ["Verify the certificate lists the Board of Directors"]) ++
      (onlyIf (!hasIncorporators) ["Verify the certificate lists the Incorporators"]) ++
      (onlyIf (!hasStateSeal) ["Verify the certificate has the State seal affixed"]),
    detectedOrganizationName := none }

/-- `validateIRSDeterminationLetter`. -/
def validateIRSDeterminationLetter (content contentLower : String) (pages : List Page)
    (keyValuePairs : List KVPair) : ValidationOutcome :=
  let _ := (content, pages, keyValuePairs)
  let hasIRSLetterhead := strContains contentLower "internal revenue service" ||
    strContains contentLower "department of the treasury"
  let hasEIN := strContains contentLower "employer identification number" ||
    einColonScan contentLower.toList
  let hasContactPerson := strContains contentLower "person to contact" ||
    strContains contentLower "contact telephone"
  { missingElements :=
      (onlyIf (!hasIRSLetterhead) ["IRS letterhead"]) ++
      (onlyIf (!hasEIN) ["Employer Identification Number (EIN)"]) ++
      (onlyIf (!hasContactPerson) ["Contact person information"]),
    suggestedActions :=
      (onlyIf (!hasIRSLetterhead) ["Verify the letter is on IRS letterhead showing \x27Internal Revenue Service\x27"]) ++
      (onlyIf (!hasEIN) ["Verify the letter includes an Employer Identification Number"]) ++
      (onlyIf (!hasContactPerson) ["Verify the letter includes contact person details"]),
    detectedOrganizationName := none }

/-- `validateBylaws`. -/
def validateBylaws (content contentLower : String) (pages : List Page)
    (keyValuePairs : List KVPair) : ValidationOutcome :=
  let _ := (pages, keyValuePairs)
  let hasNJReference := strContains contentLower "new jersey" ||
    strContains contentLower "new jersey business corporation act" ||
    strContains contentLower "department of the treasury"
  let lower := jsToLower content
  let hasBoard := strContains lower "board of directors" || strContains lower "directors"
  let hasMeetings := strContains lower "meeting" || strContains lower "annual meeting"
  let hasAmendments := strContains lower "amendment" || strContains lower "amend"
  let hasFormationSec := strContains lower "formation" || strContains lower "organization" ||
    strContains lower "incorporate"
  let hasShareholders := strContains lower "shareholder" || strContains lower "stockholder"
  let hasCapital := strContains lower "capital" || strContains lower "stock" ||
    strContains lower "shares"
  let hasBooks := strContains lower "books and records" || strContains lower "corporate records"
  let hasDirectorDuties := directorDutiesScan content.toList
  let hasVoting := strContains lower "vote" || strContains lower "voting"
  let hasCorporateSeal := strContains lower "corporate seal"
  let hasPageNumbering := pageNumScan content.toList
  let hasStatutoryReferences := statRefScan content.toList || sectionStatScan content.toList
  { missingElements :=
      (onlyIf (!(strContains contentLower "bylaws") && !(strContains contentLower "by-laws")) ["Required text: \x27Bylaws\x27 or \x27By-laws\x27"]) ++
      (onlyIf (!hasNJReference) ["New Jersey state references"]) ++
      (onlyIf (!hasBoard) ["Board of Directors"]) ++
      (onlyIf (!hasMeetings) ["Meetings section"]) ++
      (onlyIf (!hasAmendments) ["Amendments section"]) ++
      (onlyIf (!hasFormationSec) ["Corporate formation"]) ++
      (onlyIf (!hasShareholders) ["Shareholders"]) ++
      (onlyIf (!hasCapital) ["Capital/Stock"]) ++
      (onlyIf (!hasBooks) ["Books and Records"]) ++
      (onlyIf (!hasDirectorDuties) ["Director duties"]) ++
      (onlyIf (!hasVoting) ["Voting procedures"]) ++
      (onlyIf (!hasCorporateSeal) ["Corporate seal"]) ++
      (onlyIf (!hasPageNumbering) ["Page numbering"]) ++
      (onlyIf (!hasStatutoryReferences) ["New Jersey statutory references"]),
    suggestedActions :=
      (onlyIf (!hasNJReference) ["Verify the bylaws reference New Jersey state law"]) ++
      (onlyIf (!hasBoard) ["Verify bylaws contain a board of directors section"]) ++
      (onlyIf (!hasMeetings) ["Verify bylaws contain a meetings section section"]) ++
      (onlyIf (!hasAmendments) ["Verify bylaws contain a amendments section section"]) ++
      (onlyIf (!hasFormationSec) ["Verify bylaws contain a corporate formation section"]) ++
      (onlyIf (!hasShareholders) ["Verify bylaws contain a shareholders section"]) ++
      (onlyIf (!hasCapital) ["Verify bylaws contain a capital/stock section"]) ++
      (onlyIf (!hasBooks) ["Verify bylaws contain a books and records section"]) ++
      (onlyIf (!hasDirectorDuties) ["Verify bylaws address director duties"]) ++
      (onlyIf (!hasVoting) ["Verify bylaws address voting procedures"]) ++
      (onlyIf (!hasCorporateSeal) ["Verify bylaws address corporate seal"]) ++
      (onlyIf (!hasPageNumbering) ["Verify bylaws include proper page numbering (e.g., \x27Page X of Y\x27)"]) ++
      (onlyIf (!hasStatutoryReferences) ["Verify bylaws reference specific sections of the New Jersey Business Corporation Act"]),
    detectedOrganizationName := none }

/-- `validateCertificateOfAuthority`. -/
def validateCertificateOfAuthority (content contentLower : String) (pages : List Page)
    (keyValuePairs : List KVPair) (formFields : FormFields) : ValidationOutcome :=
  let _ := (pages, keyValuePairs, formFields)
  let hasStateSeal := strContains contentLower "state seal" ||
    strContains contentLower "great seal" || strContains contentLower "state of new jersey"
  let hasWatermark := strContains contentLower "watermark" ||
    strContains contentLower "official document"
  let hasIssuanceDate := dateColonScan (jsToLower content).toList ||
    strContains (jsToLower content) "dated" || strContains (jsToLower content) "issuance date" ||
    strContains (jsToLower content) "issued on" || numPresenceScan content.toList
  { missingElements :=
      (onlyIf (!(strContains contentLower "certificate of authority")) ["Required text: \x27Certificate of Authority\x27"]) ++
      (onlyIf (!hasStateSeal) ["State seal"]) ++
      (onlyIf (!hasWatermark) ["Watermark in the background"]) ++
      (onlyIf (!hasIssuanceDate) ["Issuance date"]),
    suggestedActions :=
      (onlyIf (!hasStateSeal) ["Verify the certificate contains the state seal"]) ++
      (onlyIf (!hasWatermark) ["Verify the certificate has a watermark in the background"]) ++
      (onlyIf (!hasIssuanceDate) ["Verify the certificate includes an issuance date"]),
    detectedOrganizationName := none }

/-- `validateCertificateOfAuthorityAutomatic`. -/
def validateCertificateOfAuthorityAutomatic (content contentLower : String) (pages : List Page)
    (keyValuePairs : List KVPair) : ValidationOutcome :=
  let _ := pages
  let hasStateSeal := strContains contentLower "state seal" ||
    strContains contentLower "great seal" || strContains contentLower "state of new jersey"
  let hasApplicantName := keyValuePairs.any (kvKeyMatches (fun k =>
    strContains (jsToLower k) "name" || strContains (jsToLower k) "entity"))
  let hasIssuanceDate := dateColonScan (jsToLower content).toList ||
    strContains (jsToLower content) "dated" || strContains (jsToLower content) "issuance date" ||
    strContains (jsToLower content) "issued on" || numPresenceScan content.toList
  { missingElements :=
      (onlyIf (!(strContains contentLower "certificate of authority")) ["Required text: \x27Certificate of Authority\x27"]) ++
      (onlyIf (!hasStateSeal) ["State seal"]) ++
      (onlyIf (!hasApplicantName) ["Applicant\x27s name"]) ++
      (onlyIf (!hasIssuanceDate) ["Issuance date"]),
    suggestedActions :=
      (onlyIf (!hasStateSeal) ["Verify the certificate contains the state seal"]) ++
      (onlyIf (!hasApplicantName) ["Verify the certificate includes the applicant\x27s name"]) ++
      (onlyIf (!hasIssuanceDate) ["Verify the certificate includes an issuance date"]),
    detectedOrganizationName := none }

/-! ### Dispatcher and response aggregation -/

/-- The argument object of `validateDocumentByType` (the unused collaborator
fields `languages`, `styles`, `tables`, `entities` are omitted: no rule set
reads them). -/
structure ValidateOptions where
  documentType : String
  content : String
  contentLower : String
  pages : List Page
  keyValuePairs : List KVPair
  formFields : FormFields
deriving DecidableEq

/-- The document-type tags the dispatcher recognizes, in case order. -/
def recognizedDocumentTypes : List String :=
  ["tax-clearance-online", "tax-clearance-manual", "cert-alternative-name", "cert-trade-name",
   "cert-formation", "cert-formation-independent", "cert-good-standing-long",
   "cert-good-standing-short", "operating-agreement", "cert-incorporation", "irs-determination",
   "bylaws", "cert-authority", "cert-authority-auto"]

/-- The fixed outcome of the dispatcher's `default` branch. -/
def unknownTypeOutcome : ValidationOutcome :=
  { missingElements := ["Unknown document type"],
    suggestedActions := ["Select a valid document type and try again"],
    detectedOrganizationName := none }

/-- `validateDocumentByType(options)`: the tag switch. -/
def validateDocumentByType (now : JsNow) (o : ValidateOptions) : ValidationOutcome :=
  if o.documentType = "tax-clearance-online" then
    validateTaxClearanceOnline now o.content o.contentLower o.pages o.keyValuePairs o.formFields
  else if o.documentType = "tax-clearance-manual" then
    validateTaxClearanceManual now o.content o.contentLower o.pages o.keyValuePairs o.formFields
  else if o.documentType = "cert-alternative-name" then
    validateCertificateAlternativeName o.content o.contentLower o.pages o.keyValuePairs
  else if o.documentType = "cert-trade-name" then
    validateCertificateOfTradeName o.content o.contentLower o.pages o.keyValuePairs
  else if o.documentType = "cert-formation" then
    validateCertificateOfFormation o.content o.contentLower o.pages o.keyValuePairs o.formFields
  else if o.documentType = "cert-formation-independent" then
    validateCertificateOfFormationIndependent o.content o.contentLower o.pages o.keyValuePairs
      o.formFields
  else if o.documentType = "cert-good-standing-long" then
    validateCertificateOfGoodStandingLong o.content o.contentLower o.pages o.keyValuePairs
      o.formFields
  else if o.documentType = "cert-good-standing-short" then
    validateCertificateOfGoodStandingShort o.content o.contentLower o.pages o.keyValuePairs
      o.formFields
  else if o.documentType = "operating-agreement" then
    validateOperatingAgreement o.content o.contentLower o.pages o.keyValuePairs o.formFields
  else if o.documentType = "cert-incorporation" then
    validateCertificateOfIncorporation o.content o.contentLower o.pages o.keyValuePairs
      o.formFields
  else if o.documentType = "irs-determination" then
    validateIRSDeterminationLetter o.content o.contentLower o.pages o.keyValuePairs
  else if o.documentType = "bylaws" then
    validateBylaws o.content o.contentLower o.pages o.keyValuePairs
  else if o.documentType = "cert-authority" then
    validateCertificateOfAuthority o.content o.contentLower o.pages o.keyValuePairs o.formFields
  else if o.documentType = "cert-authority-auto" then
    validateCertificateOfAuthorityAutomatic o.content o.contentLower o.pages o.keyValuePairs
  else unknownTypeOutcome

/-- The `organizationNameMatches` field of the Azure handler's response body:
true exactly when no missing element mentions the fixed name-mismatch
substring.  It is a pure function of the rule-set outcome. -/
def handlerOrgNameMatches (validationResults : ValidationOutcome) : Bool :=
  !(validationResults.missingElements.any (fun element =>
      strContains element "Organization name doesn\x27t match"))

/-- The `success` field of the response body. -/
def handlerSuccess (validationResults : ValidationOutcome) : Bool :=
  validationResults.missingElements.length == 0

/-! ### Idempotence of `normalizeOrganizationName`: character-class facts -/

theorem toNat_ofNat_lower {m : Nat} (h1 : 97 ≤ m) (h2 : m ≤ 122) :
    (Char.ofNat m).toNat = m := by
  interval_cases m <;> rfl

theorem jsLowerChar_toNat {c : Char} (h : 65 ≤ c.toNat ∧ c.toNat ≤ 90) :
    (jsLowerChar c).toNat = c.toNat + 32 := by
  unfold jsLowerChar
  rw [if_pos h]
  exact toNat_ofNat_lower (by omega) (by omega)

theorem jsLowerChar_fixed {c : Char} (h : ¬(65 ≤ c.toNat ∧ c.toNat ≤ 90)) :
    jsLowerChar c = c := by
  unfold jsLowerChar
  rw [if_neg h]

theorem jsLowerChar_idem (c : Char) : jsLowerChar (jsLowerChar c) = jsLowerChar c := by
  by_cases h : 65 ≤ c.toNat ∧ c.toNat ≤ 90
  · have ht := jsLowerChar_toNat h
    exact jsLowerChar_fixed (by omega)
  · rw [jsLowerChar_fixed h]
    exact jsLowerChar_fixed h

theorem isWordChar_iff (c : Char) : isWordChar c = true ↔
    (97 ≤ c.toNat ∧ c.toNat ≤ 122) ∨ (65 ≤ c.toNat ∧ c.toNat ≤ 90) ∨
    (48 ≤ c.toNat ∧ c.toNat ≤ 57) ∨ c.toNat = 95 := by
  simp only [isWordChar, Bool.or_eq_true, Bool.and_eq_true, decide_eq_true_eq,
    Nat.beq_eq_true_eq]
  tauto

theorem isJsWs_iff (c : Char) : isJsWs c = true ↔
    c.toNat = 32 ∨ c.toNat = 9 ∨ c.toNat = 10 ∨ c.toNat = 13 ∨
    c.toNat = 11 ∨ c.toNat = 12 := by
  simp only [isJsWs, Bool.or_eq_true, Nat.beq_eq_true_eq]
  tauto

theorem word_not_ws {c : Char} (h : isWordChar c = true) : isJsWs c = false := by
  have hw := (isWordChar_iff c).mp h
  rw [← Bool.not_eq_true, isJsWs_iff]
  omega

theorem word_not_lookahead {c : Char} (h : isWordChar c = true) :
    isLookaheadChar c = false := by
  have hw := (isWordChar_iff c).mp h
  have hws := word_not_ws h
  simp only [isLookaheadChar, hws, Bool.false_or, Bool.or_eq_false_iff]
  constructor <;> (simp only [beq_eq_false_iff_ne, ne_eq] ; omega)

theorem ws_not_word {c : Char} (h : isJsWs c = true) : isWordChar c = false := by
  have hw := (isJsWs_iff c).mp h
  rw [← Bool.not_eq_true, isWordChar_iff]
  omega

theorem word_ne_dot {c : Char} (h : isWordChar c = true) : c ≠ '.' := by
  intro hc
  subst hc
  exact absurd h (by decide)

theorem nonword_lower_fixed {c : Char} (h : isWordChar c = false) :
    jsLowerChar c = c := by
  apply jsLowerChar_fixed
  rw [← Bool.not_eq_true, isWordChar_iff] at h
  omega

theorem word_char_ne {a c : Char} (ha : isWordChar a = true)
    (hc : isWordChar c = false) : a ≠ c := by
  intro he
  subst he
  rw [ha] at hc
  exact Bool.noConfusion hc

/-! ### Small list facts used by the idempotence development -/

theorem mem_of_mem_dropWhile {p : Char → Bool} {l : List Char} {a : Char}
    (h : a ∈ l.dropWhile p) : a ∈ l := by
  induction l with
  | nil => simp [List.dropWhile] at h
  | cons c cs ih =>
    rw [List.dropWhile_cons] at h
    split at h
    · exact List.mem_cons_of_mem c (ih h)
    · exact h

theorem getLastD_mem {l : List Char} (hl : l ≠ []) (d : Char) : l.getLastD d ∈ l := by
  induction l generalizing d with
  | nil => exact absurd rfl hl
  | cons c cs ih =>
    rw [List.getLastD_cons]
    cases cs with
    | nil => simp [List.getLastD]
    | cons b bs => exact List.mem_cons_of_mem c (ih (by simp) c)

theorem head_dropWhile_neg {p : Char → Bool} {l : List Char} {c : Char}
    (h : (l.dropWhile p).head? = some c) : p c = false := by
  induction l with
  | nil => simp [List.dropWhile] at h
  | cons b bs ih =>
    rw [List.dropWhile_cons] at h
    split at h
    · exact ih h
    · rename_i hb
      simp only [List.head?_cons, Option.some.injEq] at h
      subst h
      simpa using hb

theorem dropWhile_eq_self_of_head {p : Char → Bool} {l : List Char}
    (h : ∀ c, l.head? = some c → p c = false) : l.dropWhile p = l := by
  cases l with
  | nil => rfl
  | cons c cs =>
    apply List.dropWhile_cons_of_neg
    simp [h c rfl]

theorem getLast_cons_ne_nil {c : Char} {l : List Char} (h : l ≠ []) :
    (c :: l).getLast? = l.getLast? := by
  cases l with
  | nil => exact absurd rfl h
  | cons b bs => exact List.getLast?_cons_cons

theorem getLast_dropWhile_ne_nil {p : Char → Bool} {l : List Char}
    (h : l.dropWhile p ≠ []) : (l.dropWhile p).getLast? = l.getLast? := by
  induction l with
  | nil => simp [List.dropWhile] at h
  | cons c cs ih =>
    rw [List.dropWhile_cons]
    rw [List.dropWhile_cons] at h
    split at h <;> rename_i hc
    · rw [if_pos hc]
      have hcs : cs ≠ [] := by
        intro he
        subst he
        exact h (by simp [List.dropWhile])
      rw [ih h, getLast_cons_ne_nil hcs]
    · rw [if_neg hc]

theorem getLast_drop_ne_nil {l : List Char} :
    ∀ {n : Nat}, l.drop n ≠ [] → (l.drop n).getLast? = l.getLast? := by
  induction l with
  | nil => intro n h; simp at h
  | cons c cs ih =>
    intro n h
    cases n with
    | zero => rfl
    | succ m =>
      rw [List.drop_succ_cons] at h ⊢
      have hcs : cs ≠ [] := by
        intro he
        subst he
        simp at h
      rw [ih h, getLast_cons_ne_nil hcs]

theorem chain_dropWhile {R : Char → Char → Prop} {p : Char → Bool} {l : List Char}
    (h : List.Chain' R l) : List.Chain' R (l.dropWhile p) := by
  induction l with
  | nil => simp [List.dropWhile]
  | cons c cs ih =>
    rw [List.dropWhile_cons]
    split
    · exact ih (List.chain'_cons'.mp h).2
    · exact h

theorem chain_drop {R : Char → Char → Prop} {l : List Char} :
    ∀ n, List.Chain' R l → List.Chain' R (l.drop n) := by
  induction l with
  | nil => intro n _; simp
  | cons c cs ih =>
    intro n h
    cases n with
    | zero => exact h
    | succ m =>
      rw [List.drop_succ_cons]
      exact ih m (List.chain'_cons'.mp h).2

theorem map_eq_self_of_id {f : Char → Char} {l : List Char}
    (h : ∀ c ∈ l, f c = c) : l.map f = l := by
  induction l with
  | nil => rfl
  | cons c cs ih =>
    rw [List.map_cons, h c (List.mem_cons_self c cs), ih (fun d hd => h d (List.mem_cons_of_mem c hd))]

theorem foldl_eq_self {α β : Type} (g : α → β → α) {s : α} :
    ∀ {ps : List β}, (∀ p ∈ ps, g s p = s) → ps.foldl g s = s := by
  intro ps
  induction ps with
  | nil => intro _; rfl
  | cons p pt ih =>
    intro h
    rw [List.foldl_cons, h p (List.mem_cons_self p pt)]
    exact ih (fun q hq => h q (List.mem_cons_of_mem p hq))

/-! ### Clean strings: the shape invariants of the normalization pipeline.
A clean character list is lowercase-stable, has no commas or periods, uses
only plain spaces as whitespace, has no two adjacent whitespace characters,
and neither starts nor ends with whitespace. -/

def charsClean (s : List Char) : Prop :=
  ∀ c ∈ s, jsLowerChar c = c ∧ c ≠ ',' ∧ c ≠ '.' ∧ (isJsWs c = true → c = ' ')

def WsFree (a b : Char) : Prop := ¬(isJsWs a = true ∧ isJsWs b = true)

def noEdgeWs (s : List Char) : Prop :=
  (∀ c, s.head? = some c → isJsWs c = false) ∧
  (∀ c, s.getLast? = some c → isJsWs c = false)

def cleanStr (s : List Char) : Prop :=
  charsClean s ∧ List.Chain' WsFree s ∧ noEdgeWs s

theorem wsFree_of_left {a b : Char} (h : isJsWs a = false) : WsFree a b := by
  intro hc
  rw [h] at hc
  exact Bool.false_ne_true hc.1

theorem wsFree_of_right {a b : Char} (h : isJsWs b = false) : WsFree a b := by
  intro hc
  rw [h] at hc
  exact Bool.false_ne_true hc.2

/-- The cleanup prefix of `normalizeOrganizationName` (everything before the
abbreviation-expansion passes), as a function on character lists. -/
def cleanupChars (l : List Char) : List Char :=
  jsTrimList (collapseWsList (stripPunctList (jsTrimList (l.map jsLowerChar))))

theorem normalizeOrganizationName_eq {name : String} (h : ¬(name = "")) :
    normalizeOrganizationName name =
      String.mk (expandAbbreviations (cleanupChars name.toList)) := by
  rw [normalizeOrganizationName, if_neg h]
  rfl

/-! Identity of each cleanup stage on an already-clean list. -/

theorem jsTrimList_eq_self {l : List Char} (h : noEdgeWs l) : jsTrimList l = l := by
  unfold jsTrimList
  rw [dropWhile_eq_self_of_head (fun c hc => h.1 c hc)]
  rw [dropWhile_eq_self_of_head (fun c hc => h.2 c (by rwa [List.head?_reverse] at hc))]
  exact List.reverse_reverse l

theorem stripPunctList_eq_self {l : List Char} (h : charsClean l) :
    stripPunctList l = l := by
  unfold stripPunctList
  rw [List.filter_eq_self]
  intro c hc
  obtain ⟨_, h1, h2, _⟩ := h c hc
  simp [h1, h2]

theorem collapseWsF_eq_self {l : List Char} :
    ∀ {fuel : Nat}, l.length ≤ fuel →
      (∀ c ∈ l, isJsWs c = true → c = ' ') → List.Chain' WsFree l →
      collapseWsF fuel l = l := by
  induction l with
  | nil => intro fuel _ _ _; cases fuel <;> rfl
  | cons c cs ih =>
    intro fuel hf hc hch
    cases fuel with
    | zero => simp at hf
    | succ fu =>
      rw [collapseWsF]
      by_cases hw : isJsWs c = true
      · rw [if_pos hw]
        have hsp : c = ' ' := hc c (List.mem_cons_self c cs) hw
        have hdw : cs.dropWhile isJsWs = cs := by
          apply dropWhile_eq_self_of_head
          intro d hd
          have := (List.chain'_cons'.mp hch).1 d hd
          rw [← Bool.not_eq_true]
          intro hdw
          exact this ⟨hw, hdw⟩
        rw [hdw, hsp]
        rw [ih (by simp at hf; omega) (fun d hd => hc d (List.mem_cons_of_mem c hd))
          (List.chain'_cons'.mp hch).2]
      · rw [if_neg hw]
        rw [ih (by simp at hf; omega) (fun d hd => hc d (List.mem_cons_of_mem c hd))
          (List.chain'_cons'.mp hch).2]

theorem cleanupChars_eq_self {l : List Char} (h : cleanStr l) : cleanupChars l = l := by
  obtain ⟨hc, hch, he⟩ := h
  unfold cleanupChars
  rw [map_eq_self_of_id (fun c hc2 => (hc c hc2).1)]
  rw [jsTrimList_eq_self he]
  rw [stripPunctList_eq_self hc]
  rw [collapseWsList, collapseWsF_eq_self (Nat.le_refl _) (fun c hc2 => (hc c hc2).2.2.2) hch]
  exact jsTrimList_eq_self he

/-! The cleanup stages establish the clean-string invariants. -/

theorem mem_jsTrimList {l : List Char} {c : Char} (h : c ∈ jsTrimList l) : c ∈ l := by
  unfold jsTrimList at h
  rw [List.mem_reverse] at h
  have h2 := mem_of_mem_dropWhile h
  rw [List.mem_reverse] at h2
  exact mem_of_mem_dropWhile h2

theorem mem_collapseWsF {c : Char} :
    ∀ {fuel : Nat} {l : List Char}, c ∈ collapseWsF fuel l →
      c = ' ' ∨ (c ∈ l ∧ isJsWs c = false) := by
  intro fuel
  induction fuel with
  | zero => intro l h; simp [collapseWsF] at h
  | succ fu ih =>
    intro l h
    cases l with
    | nil => simp [collapseWsF] at h
    | cons b bs =>
      rw [collapseWsF] at h
      split at h
      · rcases List.mem_cons.mp h with h1 | h1
        · exact Or.inl h1
        · rcases ih h1 with h2 | h2
          · exact Or.inl h2
          · exact Or.inr ⟨List.mem_cons_of_mem b (mem_of_mem_dropWhile h2.1), h2.2⟩
      · rename_i hb
        rcases List.mem_cons.mp h with h1 | h1
        · subst h1
          exact Or.inr ⟨List.mem_cons_self c bs, by simpa using hb⟩
        · rcases ih h1 with h2 | h2
          · exact Or.inl h2
          · exact Or.inr ⟨List.mem_cons_of_mem b h2.1, h2.2⟩

theorem collapseWsF_head_of_head {fuel : Nat} {l : List Char}
    (h : ∀ c, l.head? = some c → isJsWs c = false) :
    ∀ d, (collapseWsF fuel l).head? = some d → isJsWs d = false := by
  intro d hd
  cases fuel with
  | zero => simp [collapseWsF] at hd
  | succ fu =>
    cases l with
    | nil => simp [collapseWsF] at hd
    | cons b bs =>
      rw [collapseWsF] at hd
      have hb := h b rfl
      rw [if_neg (by simp [hb])] at hd
      rw [List.head?_cons, Option.some.injEq] at hd
      subst hd
      exact hb

theorem chain_collapseWsF : ∀ {fuel : Nat} {l : List Char},
    List.Chain' WsFree (collapseWsF fuel l) := by
  intro fuel
  induction fuel with
  | zero => intro l; simp [collapseWsF]
  | succ fu ih =>
    intro l
    cases l with
    | nil => simp [collapseWsF]
    | cons b bs =>
      rw [collapseWsF]
      split
      · rw [List.chain'_cons']
        refine ⟨?_, ih⟩
        intro d hd
        apply wsFree_of_right
        apply collapseWsF_head_of_head ?_ d hd
        intro e he
        exact head_dropWhile_neg he
      · rename_i hb
        rw [List.chain'_cons']
        refine ⟨?_, ih⟩
        intro d _
        exact wsFree_of_left (by simpa using hb)

theorem noEdgeWs_jsTrimList (l : List Char) : noEdgeWs (jsTrimList l) := by
  unfold jsTrimList
  constructor
  · intro c hc
    rw [List.head?_reverse] at hc
    by_cases hq : (l.dropWhile isJsWs).reverse.dropWhile isJsWs = []
    · rw [hq] at hc
      simp at hc
    · rw [getLast_dropWhile_ne_nil hq, List.getLast?_reverse] at hc
      exact head_dropWhile_neg hc
  · intro c hc
    rw [List.getLast?_reverse] at hc
    exact head_dropWhile_neg hc

theorem chain_jsTrimList {l : List Char} (h : List.Chain' WsFree l) :
    List.Chain' WsFree (jsTrimList l) := by
  unfold jsTrimList
  have hsymm : ∀ x : List Char, List.Chain' WsFree x → List.Chain' WsFree x.reverse := by
    intro x hx
    rw [List.chain'_reverse]
    exact List.Chain'.imp (fun a b hab hc => hab ⟨hc.2, hc.1⟩) hx
  exact hsymm _ (chain_dropWhile (hsymm _ (chain_dropWhile h)))

theorem cleanStr_cleanupChars (l : List Char) : cleanStr (cleanupChars l) := by
  unfold cleanupChars
  refine ⟨?_, chain_jsTrimList chain_collapseWsF, noEdgeWs_jsTrimList _⟩
  intro c hc
  have h3 := mem_jsTrimList hc
  rw [collapseWsList] at h3
  rcases mem_collapseWsF h3 with h4 | h4
  · subst h4
    refine ⟨by decide, by decide, by decide, fun _ => rfl⟩
  · obtain ⟨h5, h6⟩ := h4
    rw [stripPunctList, List.mem_filter] at h5
    obtain ⟨h7, h8⟩ := h5
    have h9 : c ∈ l.map jsLowerChar := mem_jsTrimList h7
    rw [List.mem_map] at h9
    obtain ⟨d, _, hd⟩ := h9
    refine ⟨?_, ?_, ?_, fun hw => absurd hw (by simp [h6])⟩
    · rw [← hd]
      exact jsLowerChar_idem d
    · intro he
      subst he
      simp at h8
    · intro he
      subst he
      simp at h8
/-! ### Word-run segmentation. A character list splits into maximal runs of
word characters and single separator characters. The abbreviation pattern
`\b abbr \.? (?=\s|$|[,;])` can only fire on a whole run, which makes the
replacement passes compositional at the segment level. -/

inductive Seg where
  | word : List Char → Seg
  | sep : Char → Seg
deriving DecidableEq

def flattenSegs : List Seg → List Char
  | [] => []
  | Seg.word w :: t => w ++ flattenSegs t
  | Seg.sep c :: t => c :: flattenSegs t

def segsF : Nat → List Char → List Seg
  | 0, _ => []
  | _ + 1, [] => []
  | fuel + 1, c :: cs =>
    if isWordChar c then
      Seg.word ((c :: cs).takeWhile isWordChar) ::
        segsF fuel ((c :: cs).dropWhile isWordChar)
    else Seg.sep c :: segsF fuel cs

/-- Fuel (initialized to the character count) is only a structural-termination
device: each step consumes at least one character. -/
def segs (l : List Char) : List Seg := segsF l.length l

def segOk : Seg → Prop
  | Seg.word w => w ≠ [] ∧ ∀ c ∈ w, isWordChar c = true
  | Seg.sep c => isWordChar c = false

def sepAfterWord : Seg → Seg → Prop
  | Seg.word _, Seg.word _ => False
  | _, _ => True

/-- Well-formed segmentation: runs are nonempty all-word, separators are
non-word, and no two runs are adjacent (runs are maximal). -/
def WFSegs (L : List Seg) : Prop :=
  (∀ s ∈ L, segOk s) ∧ List.Chain' sepAfterWord L

def notWordHeaded : List Seg → Prop
  | Seg.word _ :: _ => False
  | _ => True

theorem wfSegs_tail {s : Seg} {t : List Seg} (h : WFSegs (s :: t)) : WFSegs t :=
  ⟨fun x hx => h.1 x (List.mem_cons_of_mem _ hx), (List.chain'_cons'.mp h.2).2⟩

theorem after_word_not_word {w : List Char} {t : List Seg}
    (hc : List.Chain' sepAfterWord (Seg.word w :: t)) : notWordHeaded t := by
  cases t with
  | nil => trivial
  | cons s t2 =>
    cases s with
    | word w2 => exact (List.chain'_cons.mp hc).1
    | sep c => trivial

theorem takeWhile_append_all {p : Char → Bool} {w r : List Char}
    (hw : ∀ c ∈ w, p c = true) (hr : ∀ c, r.head? = some c → p c = false) :
    (w ++ r).takeWhile p = w ∧ (w ++ r).dropWhile p = r := by
  induction w with
  | nil =>
    simp only [List.nil_append]
    cases r with
    | nil => exact ⟨rfl, rfl⟩
    | cons c cs =>
      have hc := hr c rfl
      exact ⟨List.takeWhile_cons_of_neg (by simp [hc]),
        List.dropWhile_cons_of_neg (by simp [hc])⟩
  | cons a as ih =>
    have ha := hw a (List.mem_cons_self a as)
    obtain ⟨h1, h2⟩ := ih (fun c hc => hw c (List.mem_cons_of_mem a hc))
    constructor
    · rw [List.cons_append, List.takeWhile_cons_of_pos ha, h1]
    · rw [List.cons_append, List.dropWhile_cons_of_pos ha, h2]

theorem mem_of_mem_takeWhile {p : Char → Bool} {l : List Char} {a : Char}
    (h : a ∈ l.takeWhile p) : a ∈ l := by
  induction l with
  | nil => simp [List.takeWhile] at h
  | cons c cs ih =>
    rw [List.takeWhile_cons] at h
    split at h
    · rcases List.mem_cons.mp h with h1 | h1
      · exact h1 ▸ List.mem_cons_self c cs
      · exact List.mem_cons_of_mem c (ih h1)
    · simp at h

theorem flattenSegs_append (M N : List Seg) :
    flattenSegs (M ++ N) = flattenSegs M ++ flattenSegs N := by
  induction M with
  | nil => rfl
  | cons s t ih =>
    cases s with
    | word w => rw [List.cons_append, flattenSegs, flattenSegs, ih, List.append_assoc]
    | sep c =>
      rw [List.cons_append, flattenSegs, flattenSegs, ih]
      rfl

theorem flattenSegs_segsF : ∀ {fuel : Nat} {l : List Char}, l.length ≤ fuel →
    flattenSegs (segsF fuel l) = l := by
  intro fuel
  induction fuel with
  | zero =>
    intro l h
    rw [Nat.le_zero] at h
    rw [List.length_eq_zero.mp h]
    rfl
  | succ fu ih =>
    intro l h
    cases l with
    | nil => rfl
    | cons c cs =>
      rw [segsF]
      by_cases hc : isWordChar c = true
      · rw [if_pos hc, flattenSegs]
        have hdrop : ((c :: cs).dropWhile isWordChar).length ≤ fu := by
          rw [List.dropWhile_cons_of_pos hc]
          have := length_dropWhile_le_self isWordChar cs
          simp only [List.length_cons] at h
          omega
        rw [ih hdrop]
        exact List.takeWhile_append_dropWhile isWordChar (c :: cs)
      · rw [if_neg hc, flattenSegs]
        simp only [List.length_cons] at h
        rw [ih (by omega)]

theorem flattenSegs_segs (l : List Char) : flattenSegs (segs l) = l :=
  flattenSegs_segsF (Nat.le_refl _)

theorem segsF_head_sep {fuel : Nat} {l : List Char}
    (h : ∀ c, l.head? = some c → isWordChar c = false) :
    ∀ y ∈ (segsF fuel l).head?, ∃ c, y = Seg.sep c := by
  intro y hy
  cases fuel with
  | zero => simp [segsF] at hy
  | succ fu =>
    cases l with
    | nil => simp [segsF] at hy
    | cons c cs =>
      rw [segsF, if_neg (by simp [h c rfl])] at hy
      simp only [List.head?_cons, Option.mem_def, Option.some.injEq] at hy
      exact ⟨c, hy.symm⟩

theorem segsF_wf : ∀ (fuel : Nat) (l : List Char), WFSegs (segsF fuel l) := by
  intro fuel
  induction fuel with
  | zero => intro l; exact ⟨by simp [segsF], by simp [segsF]⟩
  | succ fu ih =>
    intro l
    cases l with
    | nil => exact ⟨by simp [segsF], by simp [segsF]⟩
    | cons c cs =>
      rw [segsF]
      by_cases hc : isWordChar c = true
      · rw [if_pos hc]
        obtain ⟨ihm, ihc⟩ := ih ((c :: cs).dropWhile isWordChar)
        constructor
        · intro s hs
          rcases List.mem_cons.mp hs with h1 | h1
          · subst h1
            refine ⟨by simp [List.takeWhile_cons_of_pos hc], ?_⟩
            intro d hd
            exact List.mem_takeWhile_imp hd
          · exact ihm s h1
        · rw [List.chain'_cons']
          refine ⟨?_, ihc⟩
          intro y hy
          obtain ⟨d, hd⟩ := segsF_head_sep (fun e he => head_dropWhile_neg he) y hy
          subst hd
          trivial
      · rw [if_neg hc]
        obtain ⟨ihm, ihc⟩ := ih cs
        constructor
        · intro s hs
          rcases List.mem_cons.mp hs with h1 | h1
          · subst h1
            simpa [segOk] using hc
          · exact ihm s h1
        · rw [List.chain'_cons']
          refine ⟨?_, ihc⟩
          intro y _
          cases y <;> trivial

theorem segs_wf (l : List Char) : WFSegs (segs l) := segsF_wf _ _

theorem segsF_flattenSegs : ∀ {L : List Seg}, WFSegs L →
    ∀ {fuel : Nat}, (flattenSegs L).length ≤ fuel → segsF fuel (flattenSegs L) = L := by
  intro L
  induction L with
  | nil =>
    intro _ fuel _
    cases fuel <;> rfl
  | cons s t ih =>
    intro hwf fuel hf
    obtain ⟨hm, hc⟩ := hwf
    have hwf2 : WFSegs t := wfSegs_tail ⟨hm, hc⟩
    cases s with
    | word w =>
      obtain ⟨hw1, hw2⟩ := hm (Seg.word w) (List.mem_cons_self _ _)
      have hrest : ∀ c, (flattenSegs t).head? = some c → isWordChar c = false := by
        intro c hcc
        cases t with
        | nil => simp [flattenSegs] at hcc
        | cons s2 t2 =>
          cases s2 with
          | word w2 => exact ((List.chain'_cons.mp hc).1).elim
          | sep c2 =>
            rw [flattenSegs, List.head?_cons, Option.some.injEq] at hcc
            subst hcc
            exact hm (Seg.sep c2) (List.mem_cons_of_mem _ (List.mem_cons_self _ _))
      obtain ⟨ht1, ht2⟩ := takeWhile_append_all hw2 hrest
      cases w with
      | nil => exact absurd rfl hw1
      | cons a as =>
        rw [flattenSegs] at hf ⊢
        rw [List.cons_append] at hf ht1 ht2 ⊢
        cases fuel with
        | zero => simp at hf
        | succ fu =>
          rw [segsF, if_pos (hw2 a (List.mem_cons_self _ _)), ht1, ht2]
          have hlt : (flattenSegs t).length ≤ fu := by
            simp only [List.length_cons, List.length_append] at hf
            omega
          rw [ih hwf2 hlt]
    | sep c =>
      have hsep : isWordChar c = false := hm (Seg.sep c) (List.mem_cons_self _ _)
      rw [flattenSegs] at hf ⊢
      cases fuel with
      | zero => simp at hf
      | succ fu =>
        rw [segsF, if_neg (by simp [hsep])]
        simp only [List.length_cons] at hf
        rw [ih hwf2 (by omega)]

theorem segs_flattenSegs {L : List Seg} (h : WFSegs L) : segs (flattenSegs L) = L :=
  segsF_flattenSegs h (Nat.le_refl _)

/-! ### The replacement pass at the segment level -/

def lookSegOkB : List Seg → Bool
  | [] => true
  | Seg.sep c :: _ => isLookaheadChar c
  | Seg.word _ :: _ => false

/-- One replacement pass at the segment level: a word run equal to the
abbreviation whose right context satisfies the lookahead is replaced by the
segmentation of the full form. -/
def expandSegs (a : List Char) (fs : List Seg) : List Seg → List Seg
  | [] => []
  | Seg.word w :: t =>
    if w = a ∧ lookSegOkB t = true then fs ++ expandSegs a fs t
    else Seg.word w :: expandSegs a fs t
  | Seg.sep c :: t => Seg.sep c :: expandSegs a fs t

/-- No expandable occurrence of the abbreviation `a` anywhere in the list. -/
def noSegTok (a : List Char) : List Seg → Prop
  | [] => True
  | Seg.word w :: t => ¬(w = a ∧ lookSegOkB t = true) ∧ noSegTok a t
  | Seg.sep _ :: t => noSegTok a t

theorem expandSegs_eq_self {a : List Char} {fs : List Seg} :
    ∀ {L : List Seg}, noSegTok a L → expandSegs a fs L = L := by
  intro L
  induction L with
  | nil => intro _; rfl
  | cons s t ih =>
    intro h
    cases s with
    | word w =>
      obtain ⟨h1, h2⟩ := h
      rw [expandSegs, if_neg h1, ih h2]
    | sep c => rw [expandSegs, ih h]

theorem mem_expandSegs {a : List Char} {fs : List Seg} :
    ∀ {L : List Seg} {x : Seg}, x ∈ expandSegs a fs L → x ∈ L ∨ x ∈ fs := by
  intro L
  induction L with
  | nil =>
    intro x hx
    simp [expandSegs] at hx
  | cons s t ih =>
    intro x hx
    cases s with
    | word w =>
      rw [expandSegs] at hx
      split at hx
      · rcases List.mem_append.mp hx with h1 | h1
        · exact Or.inr h1
        · rcases ih h1 with h2 | h2
          · exact Or.inl (List.mem_cons_of_mem _ h2)
          · exact Or.inr h2
      · rcases List.mem_cons.mp hx with h1 | h1
        · exact Or.inl (h1 ▸ List.mem_cons_self _ _)
        · rcases ih h1 with h2 | h2
          · exact Or.inl (List.mem_cons_of_mem _ h2)
          · exact Or.inr h2
    | sep c =>
      rw [expandSegs] at hx
      rcases List.mem_cons.mp hx with h1 | h1
      · exact Or.inl (h1 ▸ List.mem_cons_self _ _)
      · rcases ih h1 with h2 | h2
        · exact Or.inl (List.mem_cons_of_mem _ h2)
        · exact Or.inr h2

theorem expandSegs_sep_headed {a : List Char} {fs : List Seg} {t : List Seg}
    (hn : notWordHeaded t) :
    ∀ y ∈ (expandSegs a fs t).head?, ∃ c, y = Seg.sep c := by
  intro y hy
  cases t with
  | nil => simp [expandSegs] at hy
  | cons s t2 =>
    cases s with
    | word w => exact hn.elim
    | sep c =>
      rw [expandSegs] at hy
      simp only [List.head?_cons, Option.mem_def, Option.some.injEq] at hy
      exact ⟨c, hy.symm⟩

theorem lookSegOkB_false {t : List Seg} (hn : notWordHeaded t)
    (h : lookSegOkB t = false) :
    ∃ c t2, t = Seg.sep c :: t2 ∧ isLookaheadChar c = false := by
  cases t with
  | nil => simp [lookSegOkB] at h
  | cons s t2 =>
    cases s with
    | word w => exact hn.elim
    | sep c => exact ⟨c, t2, rfl, h⟩

theorem noSegTok_append {a : List Char} {M N : List Seg}
    (hM : ∀ w, Seg.word w ∈ M → w ≠ a) (hN : noSegTok a N) :
    noSegTok a (M ++ N) := by
  induction M with
  | nil => exact hN
  | cons s t ih =>
    cases s with
    | word w =>
      exact ⟨fun hc => hM w (List.mem_cons_self _ _) hc.1,
        ih (fun v hv => hM v (List.mem_cons_of_mem _ hv))⟩
    | sep c => exact ih (fun v hv => hM v (List.mem_cons_of_mem _ hv))

theorem look_expandSegs_of_false {a : List Char} {fs : List Seg} {t : List Seg}
    (hn : notWordHeaded t) (h : lookSegOkB t = false) :
    lookSegOkB (expandSegs a fs t) = false := by
  obtain ⟨c, t2, ht, hlc⟩ := lookSegOkB_false hn h
  subst ht
  rw [expandSegs]
  simpa [lookSegOkB] using hlc

theorem noSegTok_expandSegs_self {a : List Char} {fs : List Seg}
    (hfs : ∀ w, Seg.word w ∈ fs → w ≠ a) :
    ∀ {L : List Seg}, WFSegs L → noSegTok a (expandSegs a fs L) := by
  intro L
  induction L with
  | nil => intro _; trivial
  | cons s t ih =>
    intro hwf
    have hwf2 : WFSegs t := wfSegs_tail hwf
    cases s with
    | word w =>
      rw [expandSegs]
      by_cases hg : w = a ∧ lookSegOkB t = true
      · rw [if_pos hg]
        exact noSegTok_append hfs (ih hwf2)
      · rw [if_neg hg]
        refine ⟨?_, ih hwf2⟩
        rintro ⟨he1, he2⟩
        subst he1
        have hf : lookSegOkB t = false := by
          cases hlk : lookSegOkB t
          · rfl
          · exact absurd ⟨rfl, hlk⟩ hg
        rw [look_expandSegs_of_false (after_word_not_word hwf.2) hf] at he2
        exact Bool.noConfusion he2
    | sep c =>
      rw [expandSegs]
      exact ih hwf2

theorem noSegTok_expandSegs_cross {a b : List Char} {fs : List Seg}
    (hfs : ∀ w, Seg.word w ∈ fs → w ≠ a) :
    ∀ {L : List Seg}, WFSegs L → noSegTok a L → noSegTok a (expandSegs b fs L) := by
  intro L
  induction L with
  | nil => intro _ _; trivial
  | cons s t ih =>
    intro hwf hn
    have hwf2 : WFSegs t := wfSegs_tail hwf
    cases s with
    | word w =>
      obtain ⟨hn1, hn2⟩ := hn
      rw [expandSegs]
      by_cases hg : w = b ∧ lookSegOkB t = true
      · rw [if_pos hg]
        exact noSegTok_append hfs (ih hwf2 hn2)
      · rw [if_neg hg]
        refine ⟨?_, ih hwf2 hn2⟩
        rintro ⟨he1, he2⟩
        subst he1
        have hf : lookSegOkB t = false := by
          cases hlk : lookSegOkB t
          · rfl
          · exact absurd ⟨rfl, hlk⟩ hn1
        rw [look_expandSegs_of_false (after_word_not_word hwf.2) hf] at he2
        exact Bool.noConfusion he2
    | sep c =>
      rw [expandSegs]
      exact ih hwf2 hn

theorem chain_expandSegs {a : List Char} {fs : List Seg}
    (hfc : List.Chain' sepAfterWord fs) :
    ∀ {L : List Seg}, WFSegs L → List.Chain' sepAfterWord (expandSegs a fs L) := by
  intro L
  induction L with
  | nil => intro _; simp [expandSegs]
  | cons s t ih =>
    intro hwf
    have hwf2 : WFSegs t := wfSegs_tail hwf
    cases s with
    | word w =>
      rw [expandSegs]
      split
      · rw [List.chain'_append]
        refine ⟨hfc, ih hwf2, ?_⟩
        intro x _ y hy
        obtain ⟨c, hcy⟩ := expandSegs_sep_headed (after_word_not_word hwf.2) y hy
        subst hcy
        cases x <;> trivial
      · rw [List.chain'_cons']
        refine ⟨?_, ih hwf2⟩
        intro y hy
        obtain ⟨c, hcy⟩ := expandSegs_sep_headed (after_word_not_word hwf.2) y hy
        subst hcy
        trivial
    | sep c =>
      rw [expandSegs, List.chain'_cons']
      refine ⟨?_, ih hwf2⟩
      intro y _
      cases y <;> trivial

theorem wf_expandSegs {a : List Char} {fs : List Seg}
    (hfm : ∀ s ∈ fs, segOk s) (hfc : List.Chain' sepAfterWord fs)
    {L : List Seg} (hwf : WFSegs L) : WFSegs (expandSegs a fs L) := by
  refine ⟨?_, chain_expandSegs hfc hwf⟩
  intro s hs
  rcases mem_expandSegs hs with h1 | h1
  · exact hwf.1 s h1
  · exact hfm s h1
/-! ### The token match on a segmented string. On a lowercase-stable string
with no periods, `tokMatch` fires at a run boundary exactly when the whole
run equals the abbreviation and the following separator (or the end) is in
the lookahead class. -/

theorem leadMatchCI_append {a : List Char} :
    ∀ {x y : List Char}, a.length ≤ x.length →
      leadMatchCI a (x ++ y) = leadMatchCI a x := by
  induction a with
  | nil => intro x y _; rfl
  | cons a0 as ih =>
    intro x y h
    cases x with
    | nil => simp at h
    | cons x0 xs =>
      rw [List.cons_append, leadMatchCI, leadMatchCI]
      simp only [List.length_cons] at h
      rw [ih (by omega)]

theorem leadMatchCI_eq_iff {a : List Char} :
    ∀ {x : List Char}, a.length = x.length → (∀ c ∈ x, jsLowerChar c = c) →
      (leadMatchCI a x = true ↔ a = x) := by
  induction a with
  | nil =>
    intro x h _
    cases x with
    | nil => simp [leadMatchCI]
    | cons x0 xs => simp at h
  | cons a0 as ih =>
    intro x h hx
    cases x with
    | nil => simp at h
    | cons x0 xs =>
      rw [leadMatchCI, hx x0 (List.mem_cons_self _ _)]
      simp only [List.length_cons] at h
      rw [Bool.and_eq_true, beq_iff_eq]
      rw [ih (by omega) (fun c hc => hx c (List.mem_cons_of_mem _ hc))]
      constructor
      · rintro ⟨h1, h2⟩
        rw [h1, h2]
      · intro he
        injection he with h1 h2
        exact ⟨h1, h2⟩

theorem leadMatchCI_long {r : List Char}
    (hr : ∀ c, r.head? = some c → isWordChar c = false) :
    ∀ {a w : List Char}, w.length < a.length →
      (∀ c ∈ a, isWordChar c = true) →
      leadMatchCI a (w ++ r) = false := by
  intro a
  induction a with
  | nil =>
    intro w hlen _
    simp at hlen
  | cons a0 as ih =>
    intro w hlen haw
    cases w with
    | nil =>
      simp only [List.nil_append]
      cases r with
      | nil => rfl
      | cons c cs =>
        rw [leadMatchCI]
        have hc := hr c rfl
        rw [nonword_lower_fixed hc]
        have hne : (a0 == c) = false := by
          rw [beq_eq_false_iff_ne]
          exact word_char_ne (haw a0 (List.mem_cons_self _ _)) hc
        rw [hne, Bool.false_and]
    | cons w0 ws =>
      rw [List.cons_append, leadMatchCI]
      simp only [List.length_cons] at hlen
      rw [ih (by omega) (fun c hc => haw c (List.mem_cons_of_mem _ hc))]
      rw [Bool.and_false]

theorem tokMatch_sep {a : List Char} {c : Char} {r : List Char}
    (ha : a ≠ []) (haw : ∀ d ∈ a, isWordChar d = true)
    (hc : isWordChar c = false) : tokMatch a (c :: r) = none := by
  cases a with
  | nil => exact absurd rfl ha
  | cons a0 as =>
    unfold tokMatch
    rw [if_neg (by simp)]
    have hlm : leadMatchCI (a0 :: as) (c :: r) = false := by
      rw [leadMatchCI, nonword_lower_fixed hc]
      have hne : (a0 == c) = false := by
        rw [beq_eq_false_iff_ne]
        exact word_char_ne (haw a0 (List.mem_cons_self _ _)) hc
      rw [hne, Bool.false_and]
    rw [hlm]
    simp

theorem isEmpty_false_of_ne {a : List Char} (ha : a ≠ []) : a.isEmpty = false := by
  cases a with
  | nil => exact absurd rfl ha
  | cons x xs => rfl

theorem tokMatch_run {a w r : List Char}
    (ha : a ≠ []) (haw : ∀ c ∈ a, isWordChar c = true)
    (_hw : w ≠ []) (hww : ∀ c ∈ w, isWordChar c = true)
    (hwl : ∀ c ∈ w, jsLowerChar c = c)
    (hr : ∀ c, r.head? = some c → isWordChar c = false ∧ c ≠ '.') :
    tokMatch a (w ++ r) =
      if a = w ∧ lookaheadOkAt r = true then some a.length else none := by
  unfold tokMatch
  rw [isEmpty_false_of_ne ha, if_neg Bool.false_ne_true]
  rcases Nat.lt_trichotomy a.length w.length with hlt | heq | hgt
  · -- the run is longer than the abbreviation: the lookahead sees a word char
    have hanw : ¬(a = w ∧ lookaheadOkAt r = true) := by
      rintro ⟨h1, _⟩
      rw [h1] at hlt
      omega
    rw [if_neg hanw]
    have hsplit : w ++ r = w.take a.length ++ (w.drop a.length ++ r) := by
      rw [← List.append_assoc, List.take_append_drop]
    have hlen1 : (w.take a.length).length = a.length := by
      rw [List.length_take]
      omega
    rw [hsplit, leadMatchCI_append (by omega)]
    by_cases hlm : leadMatchCI a (w.take a.length) = true
    · rw [hlm, if_pos rfl]
      have hdr := List.drop_left (w.take a.length) (w.drop a.length ++ r)
      rw [hlen1] at hdr
      rw [hdr]
      have hw2ne : w.drop a.length ≠ [] := by
        intro he
        have := congrArg List.length he
        rw [List.length_drop] at this
        simp at this
        omega
      cases hd2 : w.drop a.length with
      | nil => exact absurd hd2 hw2ne
      | cons d w2 =>
        have hdw : isWordChar d = true := by
          apply hww
          have : d ∈ w.drop a.length := by
            rw [hd2]
            exact List.mem_cons_self _ _
          exact List.drop_subset _ _ this
        rw [List.cons_append]
        split
        · rename_i heq2
          injection heq2 with h1 _
          exact absurd h1 (word_ne_dot hdw)
        · simp only [lookaheadOkAt]
          rw [if_neg (by rw [word_not_lookahead hdw]; exact Bool.false_ne_true)]
    · rw [Bool.not_eq_true] at hlm
      rw [hlm]
      simp
  · -- equal lengths: the match holds exactly when the run is the abbreviation
    rw [leadMatchCI_append (by omega)]
    have hdr : (w ++ r).drop a.length = r := by
      rw [heq, List.drop_left]
    rw [hdr]
    by_cases heq2 : a = w
    · rw [(leadMatchCI_eq_iff heq hwl).mpr heq2, if_pos rfl]
      cases r with
      | nil =>
        rw [if_pos (by exact ⟨heq2, rfl⟩)]
        rfl
      | cons c r2 =>
        obtain ⟨hcw, hcd⟩ := hr c rfl
        split
        · rename_i heq3
          injection heq3 with h1 _
          exact absurd h1 hcd
        · simp only [lookaheadOkAt]
          by_cases hla : isLookaheadChar c = true
          · rw [if_pos hla, if_pos ⟨heq2, hla⟩]
          · rw [if_neg hla, if_neg (fun hc => hla hc.2)]
    · have hlm : leadMatchCI a w = false := by
        cases hl2 : leadMatchCI a w
        · rfl
        · exact absurd ((leadMatchCI_eq_iff heq hwl).mp hl2) heq2
      rw [hlm, if_neg Bool.false_ne_true, if_neg (fun hc => heq2 hc.1)]
  · -- the abbreviation is longer than the run: no match
    have hlm := leadMatchCI_long (fun c hc => (hr c hc).1) hgt haw
    rw [hlm, if_neg Bool.false_ne_true]
    rw [if_neg (by rintro ⟨h1, _⟩; rw [h1] at hgt; omega)]

/-! ### Stepping the scanner -/

theorem expandScanF_nil (a f : List Char) (fuel : Nat) (prev : Option Char) :
    expandScanF a f fuel prev [] = [] := by
  cases fuel <;> rfl

theorem expandScanF_step_none {a f : List Char} {fuel : Nat} {prev : Option Char}
    {c : Char} {cs : List Char}
    (h : (if boundaryOk prev = true then tokMatch a (c :: cs) else none) = none) :
    expandScanF a f (fuel + 1) prev (c :: cs) = c :: expandScanF a f fuel (some c) cs := by
  rw [expandScanF, h]

theorem expandScanF_step_some {a f : List Char} {fuel : Nat} {prev : Option Char}
    {s : List Char} {n : Nat} (hs : s ≠ [])
    (h : (if boundaryOk prev = true then tokMatch a s else none) = some n) :
    ∃ pc, expandScanF a f (fuel + 1) prev s =
      f ++ expandScanF a f fuel (some pc) (s.drop n) := by
  cases s with
  | nil => exact absurd rfl hs
  | cons c cs =>
    refine ⟨((c :: cs).take n).getLastD c, ?_⟩
    rw [expandScanF, h]

/-- Inside a word run the left boundary `\b` always fails, so the scanner
copies the rest of the run verbatim. -/
theorem expandScanF_run (a f : List Char) :
    ∀ (w : List Char) (m : Nat) (pc : Char) (r : List Char),
      (∀ c ∈ w, isWordChar c = true) → isWordChar pc = true →
      expandScanF a f (w.length + m) (some pc) (w ++ r) =
        w ++ expandScanF a f m (some (w.getLastD pc)) r := by
  intro w
  induction w with
  | nil =>
    intro m pc r _ _
    simp [List.getLastD]
  | cons c ws ih =>
    intro m pc r hw hpc
    rw [List.cons_append]
    rw [show (c :: ws).length + m = (ws.length + m) + 1 by simp [List.length_cons]; omega]
    rw [expandScanF_step_none (by simp [boundaryOk, hpc])]
    rw [ih m c r (fun d hd => hw d (List.mem_cons_of_mem _ hd)) (hw c (List.mem_cons_self _ _))]
    rw [List.getLastD_cons, List.cons_append]

/-! ### The bridge: on a lowercase-stable, period-free string the character
scanner computes exactly the segment-level pass. -/

def prevOkSegs (prev : Option Char) : List Seg → Prop
  | Seg.word _ :: _ => boundaryOk prev = true
  | _ => True

theorem prevOkSegs_none (L : List Seg) : prevOkSegs none L := by
  cases L with
  | nil => trivial
  | cons s t => cases s <;> trivial

theorem prevOkSegs_nonword {c : Char} (hc : isWordChar c = false) (L : List Seg) :
    prevOkSegs (some c) L := by
  cases L with
  | nil => trivial
  | cons s t =>
    cases s with
    | word w => simp [prevOkSegs, boundaryOk, hc]
    | sep d => trivial

theorem prevOkSegs_of_notWordHeaded {prev : Option Char} {t : List Seg}
    (hn : notWordHeaded t) : prevOkSegs prev t := by
  cases t with
  | nil => trivial
  | cons s t2 =>
    cases s with
    | word w => exact hn.elim
    | sep c => trivial

theorem bridge {a f : List Char} {fs : List Seg}
    (hflat : flattenSegs fs = f)
    (ha : a ≠ []) (haw : ∀ c ∈ a, isWordChar c = true) :
    ∀ (L : List Seg) (fuel : Nat) (prev : Option Char),
      WFSegs L → prevOkSegs prev L →
      (∀ c ∈ flattenSegs L, jsLowerChar c = c) →
      (∀ c ∈ flattenSegs L, c ≠ '.') →
      (flattenSegs L).length ≤ fuel →
      expandScanF a f fuel prev (flattenSegs L) = flattenSegs (expandSegs a fs L) := by
  intro L
  induction L with
  | nil =>
    intro fuel prev _ _ _ _ _
    rw [flattenSegs, expandScanF_nil]
    rfl
  | cons s t ih =>
    intro fuel prev hwf hpv hls hnd hfuel
    have hwf2 : WFSegs t := wfSegs_tail hwf
    cases s with
    | sep c =>
      have hcw : isWordChar c = false := hwf.1 (Seg.sep c) (List.mem_cons_self _ _)
      rw [flattenSegs] at hls hnd hfuel ⊢
      cases fuel with
      | zero => simp at hfuel
      | succ fu =>
        rw [expandScanF_step_none ?hstep]
        case hstep =>
          by_cases hb : boundaryOk prev = true
          · rw [if_pos hb]
            exact tokMatch_sep ha haw hcw
          · rw [if_neg hb]
        rw [ih fu (some c) hwf2 (prevOkSegs_nonword hcw t)
          (fun d hd => hls d (List.mem_cons_of_mem _ hd))
          (fun d hd => hnd d (List.mem_cons_of_mem _ hd))
          (by simp only [List.length_cons] at hfuel; omega)]
        rw [expandSegs, flattenSegs]
    | word w =>
      obtain ⟨hwne, hwall⟩ := hwf.1 (Seg.word w) (List.mem_cons_self _ _)
      have hbd : boundaryOk prev = true := hpv
      have hnw : notWordHeaded t := after_word_not_word hwf.2
      rw [flattenSegs] at hls hnd hfuel ⊢
      have hrt : ∀ c, (flattenSegs t).head? = some c →
          isWordChar c = false ∧ c ≠ '.' := by
        intro c hcc
        have hmem : c ∈ w ++ flattenSegs t :=
          List.mem_append.mpr (Or.inr (List.mem_of_mem_head? hcc))
        refine ⟨?_, hnd c hmem⟩
        cases t with
        | nil => simp [flattenSegs] at hcc
        | cons s2 t2 =>
          cases s2 with
          | word w2 => exact hnw.elim
          | sep c2 =>
            rw [flattenSegs, List.head?_cons, Option.some.injEq] at hcc
            subst hcc
            exact hwf.1 (Seg.sep c2) (List.mem_cons_of_mem _ (List.mem_cons_self _ _))
      have hwl : ∀ c ∈ w, jsLowerChar c = c :=
        fun c hcw => hls c (List.mem_append.mpr (Or.inl hcw))
      have htm := tokMatch_run ha haw hwne hwall hwl hrt
      have hlook : lookaheadOkAt (flattenSegs t) = lookSegOkB t := by
        cases t with
        | nil => rfl
        | cons s2 t2 =>
          cases s2 with
          | word w2 => exact hnw.elim
          | sep c2 => rfl
      by_cases hg : w = a ∧ lookSegOkB t = true
      · obtain ⟨hg1, hg2⟩ := hg
        subst hg1
        cases fuel with
        | zero =>
          rw [List.length_append] at hfuel
          have : 0 < w.length := List.length_pos.mpr hwne
          omega
        | succ fu =>
          have htok : (if boundaryOk prev = true
              then tokMatch w (w ++ flattenSegs t) else none) = some w.length := by
            rw [if_pos hbd, htm, if_pos ⟨rfl, by rw [hlook]; exact hg2⟩]
          obtain ⟨pc, hstep⟩ := expandScanF_step_some
            (fun he => hwne (List.append_eq_nil.mp he).1) htok
          rw [hstep, List.drop_left]
          rw [ih fu (some pc) hwf2 (prevOkSegs_of_notWordHeaded hnw)
            (fun d hd => hls d (List.mem_append.mpr (Or.inr hd)))
            (fun d hd => hnd d (List.mem_append.mpr (Or.inr hd)))
            (by rw [List.length_append] at hfuel
                have : 0 < w.length := List.length_pos.mpr hwne
                omega)]
          rw [expandSegs, if_pos ⟨rfl, hg2⟩, flattenSegs_append, hflat]
      · have htokn : (if boundaryOk prev = true
            then tokMatch a (w ++ flattenSegs t) else none) = none := by
          rw [if_pos hbd, htm, if_neg ?_]
          rintro ⟨h1, h2⟩
          exact hg ⟨h1.symm, by rw [← hlook]; exact h2⟩
        cases w with
        | nil => exact absurd rfl hwne
        | cons w0 ws =>
          cases fuel with
          | zero =>
            rw [List.length_append, List.length_cons] at hfuel
            omega
          | succ fu =>
            rw [List.cons_append] at htokn ⊢
            rw [expandScanF_step_none htokn]
            obtain ⟨m, hm, hfu⟩ : ∃ m, (flattenSegs t).length ≤ m ∧ fu = ws.length + m := by
              rw [List.length_append, List.length_cons] at hfuel
              exact ⟨fu - ws.length, by omega, by omega⟩
            subst hfu
            rw [expandScanF_run a f ws m w0 (flattenSegs t)
              (fun d hd => hwall d (List.mem_cons_of_mem _ hd))
              (hwall w0 (List.mem_cons_self _ _))]
            rw [ih m (some (ws.getLastD w0)) hwf2 (prevOkSegs_of_notWordHeaded hnw)
              (fun d hd => hls d (List.mem_append.mpr (Or.inr hd)))
              (fun d hd => hnd d (List.mem_append.mpr (Or.inr hd)))
              hm]
            rw [expandSegs, if_neg hg, flattenSegs, List.cons_append]
/-! ### Shape preservation of one replacement pass at the character level -/

theorem step_some_pos {a : List Char} {prev : Option Char} {s : List Char} {n : Nat}
    (h : (if boundaryOk prev = true then tokMatch a s else none) = some n) : 1 ≤ n := by
  split at h
  · exact tokMatch_one_le h
  · exact Option.noConfusion h

theorem mem_expandScanF {a f : List Char} {c : Char} :
    ∀ {fuel : Nat} {prev : Option Char} {s : List Char},
      c ∈ expandScanF a f fuel prev s → c ∈ f ∨ c ∈ s := by
  intro fuel
  induction fuel with
  | zero =>
    intro prev s h
    simp [expandScanF] at h
  | succ fu ih =>
    intro prev s h
    cases s with
    | nil =>
      rw [expandScanF_nil] at h
      simp at h
    | cons b bs =>
      cases hm : (if boundaryOk prev = true then tokMatch a (b :: bs) else none) with
      | some n =>
        obtain ⟨pc, hstep⟩ := expandScanF_step_some (by simp) hm
        rw [hstep] at h
        rcases List.mem_append.mp h with h1 | h1
        · exact Or.inl h1
        · rcases ih h1 with h2 | h2
          · exact Or.inl h2
          · exact Or.inr (List.drop_subset _ _ h2)
      | none =>
        rw [expandScanF_step_none hm] at h
        rcases List.mem_cons.mp h with h1 | h1
        · exact Or.inr (h1 ▸ List.mem_cons_self b bs)
        · rcases ih h1 with h2 | h2
          · exact Or.inl h2
          · exact Or.inr (List.mem_cons_of_mem b h2)

theorem head_expandScanF {a f : List Char} (hf : f ≠ []) {fuel : Nat}
    {prev : Option Char} {s : List Char} {d : Char}
    (h : (expandScanF a f fuel prev s).head? = some d) :
    f.head? = some d ∨ s.head? = some d := by
  cases fuel with
  | zero => simp [expandScanF] at h
  | succ fu =>
    cases s with
    | nil =>
      rw [expandScanF_nil] at h
      exact Option.noConfusion h
    | cons b bs =>
      cases hm : (if boundaryOk prev = true then tokMatch a (b :: bs) else none) with
      | none =>
        rw [expandScanF_step_none hm, List.head?_cons, Option.some.injEq] at h
        exact Or.inr (by rw [List.head?_cons, h])
      | some n =>
        obtain ⟨pc, hstep⟩ := expandScanF_step_some (by simp) hm
        rw [hstep] at h
        cases f with
        | nil => exact absurd rfl hf
        | cons f0 ft =>
          rw [List.cons_append, List.head?_cons, Option.some.injEq] at h
          exact Or.inl (by rw [List.head?_cons, h])

theorem expandScanF_ne_nil {a f : List Char} (hf : f ≠ []) :
    ∀ {fuel : Nat} {prev : Option Char} {s : List Char},
      1 ≤ fuel → s ≠ [] → expandScanF a f fuel prev s ≠ [] := by
  intro fuel prev s hfu hs
  cases fuel with
  | zero => omega
  | succ fu =>
    cases s with
    | nil => exact absurd rfl hs
    | cons b bs =>
      cases hm : (if boundaryOk prev = true then tokMatch a (b :: bs) else none) with
      | none =>
        rw [expandScanF_step_none hm]
        simp
      | some n =>
        obtain ⟨pc, hstep⟩ := expandScanF_step_some (by simp) hm
        rw [hstep]
        exact fun he => hf (List.append_eq_nil.mp he).1

theorem getLast_expandScanF {a f : List Char} (hf : f ≠ []) :
    ∀ {fuel : Nat} {s : List Char} {prev : Option Char} {d : Char},
      s.length ≤ fuel →
      (expandScanF a f fuel prev s).getLast? = some d →
      f.getLast? = some d ∨ s.getLast? = some d := by
  intro fuel
  induction fuel with
  | zero =>
    intro s prev d hl h
    have hs : s = [] := List.length_eq_zero.mp (Nat.le_zero.mp hl)
    subst hs
    rw [expandScanF_nil] at h
    exact Option.noConfusion h
  | succ fu ih =>
    intro s prev d hl h
    cases s with
    | nil =>
      rw [expandScanF_nil] at h
      exact Option.noConfusion h
    | cons b bs =>
      simp only [List.length_cons] at hl
      cases hm : (if boundaryOk prev = true then tokMatch a (b :: bs) else none) with
      | none =>
        rw [expandScanF_step_none hm] at h
        by_cases hbs : bs = []
        · subst hbs
          rw [expandScanF_nil] at h
          exact Or.inr h
        · have hbl : 1 ≤ fu := by
            have := List.length_pos.mpr hbs
            omega
          rw [getLast_cons_ne_nil (expandScanF_ne_nil hf hbl hbs)] at h
          rcases ih (by omega) h with h1 | h1
          · exact Or.inl h1
          · exact Or.inr (by rw [getLast_cons_ne_nil hbs]; exact h1)
      | some n =>
        obtain ⟨pc, hstep⟩ := expandScanF_step_some (by simp) hm
        rw [hstep] at h
        have hn1 : 1 ≤ n := step_some_pos hm
        by_cases hds : (b :: bs).drop n = []
        · rw [hds, expandScanF_nil, List.append_nil] at h
          exact Or.inl h
        · have hlen2 : ((b :: bs).drop n).length ≤ fu := by
            rw [List.length_drop]
            simp only [List.length_cons]
            omega
          have hfu1 : 1 ≤ fu := by
            have := List.length_pos.mpr hds
            omega
          have hne2 : expandScanF a f fu (some pc) ((b :: bs).drop n) ≠ [] :=
            expandScanF_ne_nil hf hfu1 hds
          rw [List.getLast?_append] at h
          cases hgl : (expandScanF a f fu (some pc) ((b :: bs).drop n)).getLast? with
          | none =>
            have hiso := List.getLast?_isSome.mpr hne2
            rw [hgl] at hiso
            exact Bool.noConfusion hiso
          | some e =>
            rw [hgl] at h
            have h2 : (some e : Option Char) = some d := h
            rw [Option.some.injEq] at h2
            subst h2
            rcases ih hlen2 hgl with h1 | h1
            · exact Or.inl h1
            · exact Or.inr (by rw [← getLast_drop_ne_nil hds]; exact h1)

theorem chain_expandScanF {a f : List Char}
    (hf : f ≠ []) (hfc : List.Chain' WsFree f)
    (hfh : ∀ d, f.head? = some d → isJsWs d = false)
    (hfl : ∀ d, f.getLast? = some d → isJsWs d = false) :
    ∀ {fuel : Nat} {prev : Option Char} {s : List Char},
      List.Chain' WsFree s → List.Chain' WsFree (expandScanF a f fuel prev s) := by
  intro fuel
  induction fuel with
  | zero =>
    intro prev s _
    simp [expandScanF]
  | succ fu ih =>
    intro prev s hch
    cases s with
    | nil =>
      rw [expandScanF_nil]
      simp
    | cons b bs =>
      cases hm : (if boundaryOk prev = true then tokMatch a (b :: bs) else none) with
      | none =>
        rw [expandScanF_step_none hm]
        rw [List.chain'_cons']
        refine ⟨?_, ih (List.chain'_cons'.mp hch).2⟩
        intro y hy
        rcases head_expandScanF hf (Option.mem_def.mp hy) with h1 | h1
        · exact wsFree_of_right (hfh y h1)
        · exact (List.chain'_cons'.mp hch).1 y (Option.mem_def.mpr h1)
      | some n =>
        obtain ⟨pc, hstep⟩ := expandScanF_step_some (by simp) hm
        rw [hstep]
        rw [List.chain'_append]
        refine ⟨hfc, ih (chain_drop n hch), ?_⟩
        intro x hx y _
        exact wsFree_of_left (hfl x (Option.mem_def.mp hx))

/-- A replacement pass preserves all clean-string invariants, provided the
replacement text itself is nonempty and clean at the edges. -/
theorem cleanStr_expandScan {a f s : List Char}
    (hf : f ≠ []) (hfc : charsClean f) (hfch : List.Chain' WsFree f)
    (hfe : noEdgeWs f) (hs : cleanStr s) :
    cleanStr (expandScan a f none s) := by
  obtain ⟨hsc, hsch, hse⟩ := hs
  unfold expandScan
  refine ⟨?_, chain_expandScanF hf hfch hfe.1 hfe.2 hsch, ?_, ?_⟩
  · intro c hc
    rcases mem_expandScanF hc with h1 | h1
    · exact hfc c h1
    · exact hsc c h1
  · intro c hc
    rcases head_expandScanF hf hc with h1 | h1
    · exact hfe.1 c h1
    · exact hse.1 c h1
  · intro c hc
    rcases getLast_expandScanF hf (Nat.le_refl _) hc with h1 | h1
    · exact hfe.2 c h1
    · exact hse.2 c h1

/-! ### A pass as a segment-level operation, and the pass-identity law -/

theorem expandScan_eq_segs {a f s : List Char}
    (ha : a ≠ []) (haw : ∀ c ∈ a, isWordChar c = true)
    (hls : ∀ c ∈ s, jsLowerChar c = c) (hnd : ∀ c ∈ s, c ≠ '.') :
    expandScan a f none s = flattenSegs (expandSegs a (segs f) (segs s)) := by
  unfold expandScan
  have hfl := flattenSegs_segs s
  calc expandScanF a f s.length none s
      = expandScanF a f s.length none (flattenSegs (segs s)) := by rw [hfl]
    _ = flattenSegs (expandSegs a (segs f) (segs s)) := by
        apply bridge (flattenSegs_segs f) ha haw (segs s) s.length none (segs_wf s)
          (prevOkSegs_none _) ?_ ?_ ?_
        · intro c hc
          exact hls c (hfl ▸ hc)
        · intro c hc
          exact hnd c (hfl ▸ hc)
        · rw [hfl]

theorem segs_expandScan {a f s : List Char}
    (ha : a ≠ []) (haw : ∀ c ∈ a, isWordChar c = true)
    (hls : ∀ c ∈ s, jsLowerChar c = c) (hnd : ∀ c ∈ s, c ≠ '.') :
    segs (expandScan a f none s) = expandSegs a (segs f) (segs s) := by
  rw [expandScan_eq_segs ha haw hls hnd]
  exact segs_flattenSegs (wf_expandSegs (segs_wf f).1 (segs_wf f).2 (segs_wf s))

/-- On a string with no expandable token, a pass is the identity. -/
theorem expandScan_eq_self_of_noSegTok {a f s : List Char}
    (ha : a ≠ []) (haw : ∀ c ∈ a, isWordChar c = true)
    (hls : ∀ c ∈ s, jsLowerChar c = c) (hnd : ∀ c ∈ s, c ≠ '.')
    (hn : noSegTok a (segs s)) :
    expandScan a f none s = s := by
  rw [expandScan_eq_segs ha haw hls hnd, expandSegs_eq_self hn, flattenSegs_segs]
/-! ### Concrete facts about the abbreviation table, checked by evaluation -/

def edgeWsOkB (s : List Char) : Bool :=
  (match s.head? with
   | some c => !isJsWs c
   | none => true) &&
  (match s.getLast? with
   | some c => !isJsWs c
   | none => true)

def chainWsB : List Char → Bool
  | a :: b :: t => !(isJsWs a && isJsWs b) && chainWsB (b :: t)
  | _ => true

/-- The abbreviation side is a nonempty word; the full form is nonempty,
lowercase-stable, has no commas, periods or exotic whitespace, no adjacent
whitespace, and word characters at both ends. -/
def pairGoodB (p : String × String) : Bool :=
  (!p.1.toList.isEmpty) && p.1.toList.all isWordChar &&
  (!p.2.toList.isEmpty) &&
  p.2.toList.all (fun c =>
    (jsLowerChar c == c) && !(c == ',') && !(c == '.') && (!isJsWs c || c == ' ')) &&
  chainWsB p.2.toList && edgeWsOkB p.2.toList

/-- No word run of the segment list equals the abbreviation `x`. -/
def segWordsAvoid (x : List Char) (M : List Seg) : Bool :=
  M.all (fun s =>
    match s with
    | Seg.word w => w != x
    | Seg.sep _ => true)

theorem edgeWsOkB_spec {s : List Char} (h : edgeWsOkB s = true) : noEdgeWs s := by
  rw [edgeWsOkB, Bool.and_eq_true] at h
  obtain ⟨h1, h2⟩ := h
  constructor
  · intro c hc
    rw [hc] at h1
    simpa using h1
  · intro c hc
    rw [hc] at h2
    simpa using h2

theorem chainWsB_spec : ∀ {s : List Char}, chainWsB s = true → List.Chain' WsFree s := by
  intro s
  induction s with
  | nil => intro _; simp
  | cons a t ih =>
    intro h
    cases t with
    | nil => simp
    | cons b t2 =>
      rw [chainWsB, Bool.and_eq_true] at h
      rw [List.chain'_cons]
      refine ⟨?_, ih h.2⟩
      intro hc
      have hx := h.1
      rw [hc.1, hc.2] at hx
      simp at hx

theorem segWordsAvoid_spec {x : List Char} {M : List Seg}
    (h : segWordsAvoid x M = true) : ∀ w, Seg.word w ∈ M → w ≠ x := by
  rw [segWordsAvoid, List.all_eq_true] at h
  intro w hw
  have hx := h (Seg.word w) hw
  simpa using hx

theorem pairGoodB_spec {p : String × String} (h : pairGoodB p = true) :
    p.1.toList ≠ [] ∧ (∀ c ∈ p.1.toList, isWordChar c = true) ∧
    p.2.toList ≠ [] ∧ charsClean p.2.toList ∧
    List.Chain' WsFree p.2.toList ∧ noEdgeWs p.2.toList := by
  rw [pairGoodB] at h
  simp only [Bool.and_eq_true] at h
  obtain ⟨⟨⟨⟨⟨h1, h2⟩, h3⟩, h4⟩, h5⟩, h6⟩ := h
  refine ⟨?_, ?_, ?_, ?_, chainWsB_spec h5, edgeWsOkB_spec h6⟩
  · intro he
    rw [he] at h1
    simp at h1
  · intro c hc
    exact List.all_eq_true.mp h2 c hc
  · intro he
    rw [he] at h3
    simp at h3
  · intro c hc
    have hdec := List.all_eq_true.mp h4 c hc
    rw [Bool.and_eq_true, Bool.and_eq_true, Bool.and_eq_true] at hdec
    obtain ⟨⟨⟨hA, hB⟩, hC⟩, hD⟩ := hdec
    refine ⟨beq_iff_eq.mp hA, ?_, ?_, ?_⟩
    · intro he
      subst he
      simp at hB
    · intro he
      subst he
      simp at hC
    · intro hw
      rw [hw] at hD
      simpa using hD

theorem pairGood_allB : abbreviationMap.all pairGoodB = true := by rfl

theorem pairGood_all : ∀ p ∈ abbreviationMap, pairGoodB p = true :=
  fun p hp => List.all_eq_true.mp pairGood_allB p hp

theorem crossAvoid_allB :
    (abbreviationMap.all (fun p =>
      abbreviationMap.all (fun q => segWordsAvoid p.1.toList (segs q.2.toList)))) = true := by
  rfl

theorem crossAvoid_all : ∀ p ∈ abbreviationMap, ∀ q ∈ abbreviationMap,
    segWordsAvoid p.1.toList (segs q.2.toList) = true :=
  fun p hp q hq => List.all_eq_true.mp (List.all_eq_true.mp crossAvoid_allB p hp) q hq

theorem toList_mk (l : List Char) : (String.mk l).toList = l := rfl

theorem noSegTok_segs_empty (a : List Char) : noSegTok a (segs "".toList) := trivial

/-! ### The eleven passes in sequence.  The scanners and the segmentation
are marked irreducible from here on: the statements below mention them
applied to eleven nested symbolic passes, and accidental evaluation of
those terms during unification is exponential.  All remaining reasoning is
by the lemmas above; reducibility is restored after this section. -/

section NormalizeIdem

attribute [local irreducible] noSegTok segs expandScan

theorem foldl_passes (ps : List (String × String))
    (hps : ∀ p ∈ ps, p ∈ abbreviationMap) :
    ∀ (s : List Char) (A : List (List Char)),
      cleanStr s →
      (∀ x ∈ A, ∀ q ∈ abbreviationMap, segWordsAvoid x (segs q.2.toList) = true) →
      (∀ x ∈ A, noSegTok x (segs s)) →
      cleanStr (ps.foldl (fun acc p => expandScan p.1.toList p.2.toList none acc) s) ∧
      (∀ x ∈ A, noSegTok x
        (segs (ps.foldl (fun acc p => expandScan p.1.toList p.2.toList none acc) s))) ∧
      (∀ p ∈ ps, noSegTok p.1.toList
        (segs (ps.foldl (fun acc p => expandScan p.1.toList p.2.toList none acc) s))) := by
  induction ps with
  | nil =>
    intro s A hs _ hA
    exact ⟨hs, hA, fun p hp => absurd hp (List.not_mem_nil p)⟩
  | cons p pt ih =>
    intro s A hs hAav hA
    rw [List.foldl_cons]
    have hpmem : p ∈ abbreviationMap := hps p (List.mem_cons_self _ _)
    obtain ⟨ha, haw, hfne, hfc, hfch, hfe⟩ := pairGoodB_spec (pairGood_all p hpmem)
    have hls : ∀ c ∈ s, jsLowerChar c = c := fun c hc => (hs.1 c hc).1
    have hnd : ∀ c ∈ s, c ≠ '.' := fun c hc => (hs.1 c hc).2.2.1
    have hclean2 : cleanStr (expandScan p.1.toList p.2.toList none s) :=
      cleanStr_expandScan hfne hfc hfch hfe hs
    have hsegs2 : segs (expandScan p.1.toList p.2.toList none s) =
        expandSegs p.1.toList (segs p.2.toList) (segs s) :=
      segs_expandScan ha haw hls hnd
    have hself : noSegTok p.1.toList (segs (expandScan p.1.toList p.2.toList none s)) := by
      rw [hsegs2]
      exact noSegTok_expandSegs_self
        (segWordsAvoid_spec (crossAvoid_all p hpmem p hpmem)) (segs_wf s)
    have hcross : ∀ x ∈ A,
        noSegTok x (segs (expandScan p.1.toList p.2.toList none s)) := by
      intro x hx
      rw [hsegs2]
      exact noSegTok_expandSegs_cross
        (segWordsAvoid_spec (hAav x hx p hpmem)) (segs_wf s) (hA x hx)
    have hrec := ih (fun q hq => hps q (List.mem_cons_of_mem _ hq))
      (expandScan p.1.toList p.2.toList none s) (p.1.toList :: A)
      hclean2
      (fun x hx => by
        rcases List.mem_cons.mp hx with h1 | h1
        · subst h1
          intro q hq
          exact crossAvoid_all p hpmem q hq
        · exact hAav x h1)
      (fun x hx => by
        rcases List.mem_cons.mp hx with h1 | h1
        · subst h1
          exact hself
        · exact hcross x h1)
    obtain ⟨hr1, hr2, hr3⟩ := hrec
    refine ⟨hr1, ?_, ?_⟩
    · intro x hx
      exact hr2 x (List.mem_cons_of_mem _ hx)
    · intro q hq
      rcases List.mem_cons.mp hq with h1 | h1
      · subst h1
        exact hr2 q.1.toList (List.mem_cons_self _ _)
      · exact hr3 q h1

theorem expandAbbreviations_props {s : List Char} (hs : cleanStr s) :
    cleanStr (expandAbbreviations s) ∧
    ∀ p ∈ abbreviationMap, noSegTok p.1.toList (segs (expandAbbreviations s)) := by
  have heq : expandAbbreviations s =
      abbreviationMap.foldl (fun acc p => expandScan p.1.toList p.2.toList none acc) s := rfl
  rw [heq]
  have h := foldl_passes abbreviationMap (fun p hp => hp) s [] hs
    (fun x hx => absurd hx (List.not_mem_nil x))
    (fun x hx => absurd hx (List.not_mem_nil x))
  exact ⟨h.1, h.2.2⟩

theorem normalizeOrganizationName_props (x : String) :
    cleanStr (normalizeOrganizationName x).toList ∧
    ∀ p ∈ abbreviationMap,
      noSegTok p.1.toList (segs (normalizeOrganizationName x).toList) := by
  by_cases hx : x = ""
  · subst hx
    rw [normalizeOrganizationName, if_pos rfl]
    refine ⟨⟨fun c hc => absurd hc (List.not_mem_nil c), by simp, ?_, ?_⟩,
      fun p _ => noSegTok_segs_empty p.1.toList⟩
    · intro c hc
      simp at hc
    · intro c hc
      simp at hc
  · rw [normalizeOrganizationName_eq hx, toList_mk]
    have h := expandAbbreviations_props (cleanStr_cleanupChars x.toList)
    exact ⟨h.1, h.2⟩

/-! ### The idempotence theorem -/

/-- C5: organization-name normalization is idempotent — for every string
`x`, `normalizeOrganizationName (normalizeOrganizationName x)` equals
`normalizeOrganizationName x` — and expanding the legal-entity
abbreviations never produces text containing a further expandable
abbreviation token: one more replacement pass for any table entry leaves
the normalized output unchanged. -/
theorem normalizationIdempotent :
    (∀ x : String,
      normalizeOrganizationName (normalizeOrganizationName x) =
        normalizeOrganizationName x) ∧
    (∀ (x : String) (p : String × String), p ∈ abbreviationMap →
      expandScan p.1.toList p.2.toList none (normalizeOrganizationName x).toList =
        (normalizeOrganizationName x).toList) := by
  have hpass : ∀ (x : String) (p : String × String), p ∈ abbreviationMap →
      expandScan p.1.toList p.2.toList none (normalizeOrganizationName x).toList =
        (normalizeOrganizationName x).toList := by
    intro x p hp
    obtain ⟨hcl, htok⟩ := normalizeOrganizationName_props x
    obtain ⟨ha, haw, _, _, _, _⟩ := pairGoodB_spec (pairGood_all p hp)
    exact expandScan_eq_self_of_noSegTok ha haw
      (fun c hc => (hcl.1 c hc).1) (fun c hc => (hcl.1 c hc).2.2.1) (htok p hp)
  refine ⟨?_, hpass⟩
  intro x
  by_cases hy : normalizeOrganizationName x = ""
  · rw [hy]
    rfl
  · rw [normalizeOrganizationName_eq hy]
    obtain ⟨hcl, _⟩ := normalizeOrganizationName_props x
    rw [cleanupChars_eq_self hcl]
    have hfix : expandAbbreviations (normalizeOrganizationName x).toList =
        (normalizeOrganizationName x).toList := by
      have heq2 : expandAbbreviations (normalizeOrganizationName x).toList =
          abbreviationMap.foldl (fun acc p => expandScan p.1.toList p.2.toList none acc)
            (normalizeOrganizationName x).toList := rfl
      rw [heq2]
      exact foldl_eq_self _ (fun p hp => hpass x p hp)
    rw [hfix]
    rfl

/-- Closed witness for the C5 theorem at a concrete input and a concrete
abbreviation-table entry. -/
theorem normalizationIdempotent_witness :
    normalizeOrganizationName (normalizeOrganizationName "Acme Co.") =
      normalizeOrganizationName "Acme Co." ∧
    expandScan "co".toList "company".toList none
        (normalizeOrganizationName "Acme Co.").toList =
      (normalizeOrganizationName "Acme Co.").toList :=
  ⟨normalizationIdempotent.1 "Acme Co.",
   normalizationIdempotent.2 "Acme Co." ("co", "company") (by decide)⟩

end NormalizeIdem
/-! ### The claims -/

/-- C1: for every content and form-field input, dispatching a document type
that is not one of the fourteen recognized tags returns exactly the fixed
outcome with `missingElements = ["Unknown document type"]` and the fixed
suggested action, carries no detected organization name (field absence is
modelled as `none`), and — the dispatcher being a total function — does not
fail or throw. -/
theorem unknownDocumentTypeFixedOutcome (now : JsNow) (o : ValidateOptions)
    (h : o.documentType ∉ recognizedDocumentTypes) :
    validateDocumentByType now o =
      { missingElements := ["Unknown document type"],
        suggestedActions := ["Select a valid document type and try again"],
        detectedOrganizationName := none } := by
  have hne : ∀ t ∈ recognizedDocumentTypes, o.documentType ≠ t :=
    fun t ht he => h (he ▸ ht)
  have h1 := hne "tax-clearance-online" (by decide)
  have h2 := hne "tax-clearance-manual" (by decide)
  have h3 := hne "cert-alternative-name" (by decide)
  have h4 := hne "cert-trade-name" (by decide)
  have h5 := hne "cert-formation" (by decide)
  have h6 := hne "cert-formation-independent" (by decide)
  have h7 := hne "cert-good-standing-long" (by decide)
  have h8 := hne "cert-good-standing-short" (by decide)
  have h9 := hne "operating-agreement" (by decide)
  have h10 := hne "cert-incorporation" (by decide)
  have h11 := hne "irs-determination" (by decide)
  have h12 := hne "bylaws" (by decide)
  have h13 := hne "cert-authority" (by decide)
  have h14 := hne "cert-authority-auto" (by decide)
  unfold validateDocumentByType
  rw [if_neg h1, if_neg h2, if_neg h3, if_neg h4, if_neg h5, if_neg h6, if_neg h7, if_neg h8,
      if_neg h9, if_neg h10, if_neg h11, if_neg h12, if_neg h13, if_neg h14]
  rfl

/-- Witness for C1 at the concrete tag `not-a-real-type`. -/
theorem unknownDocumentTypeFixedOutcome_witness :
    "not-a-real-type" ∉ recognizedDocumentTypes ∧
      validateDocumentByType ⟨2024, 6, 1⟩
        { documentType := "not-a-real-type", content := "some document text",
          contentLower := "some document text", pages := [], keyValuePairs := [],
          formFields := ⟨"Acme LLC", "", "123456789"⟩ } =
        { missingElements := ["Unknown document type"],
          suggestedActions := ["Select a valid document type and try again"],
          detectedOrganizationName := none } :=
  ⟨by decide, unknownDocumentTypeFixedOutcome ⟨2024, 6, 1⟩ _ (by decide)⟩

/-- C2: the window test used on every parsed date accepts exactly when
`sixMonthsAgo(now) ≤ date ≤ now`, inclusive at both ends; `sixMonthsAgo` is
computed by calendar-month arithmetic (`setMonth(month - 6)`), so for
`now = 2024-07-01` it is exactly 2024-01-01 — 182 days back, not 180 — and a
text containing the date 2024-01-01 (as `01/01/2024`) passes
`checkDateWithinSixMonths` while a text whose only date is 2023-12-31 (as
`12/31/2023`) fails. -/
theorem dateWindowBoundary :
    (∀ (now : JsNow) (d : Int),
        dateInWindow (sixMonthsAgoDays now) (nowDays now) d = true ↔
          sixMonthsAgoDays now ≤ d ∧ d ≤ nowDays now) ∧
    sixMonthsAgoDays ⟨2024, 6, 1⟩ = jsMakeDate 2024 0 1 ∧
    nowDays ⟨2024, 6, 1⟩ - sixMonthsAgoDays ⟨2024, 6, 1⟩ = 182 ∧
    checkDateWithinSixMonths ⟨2024, 6, 1⟩ "Certificate issued 01/01/2024." = true ∧
    checkDateWithinSixMonths ⟨2024, 6, 1⟩ "Certificate issued 12/31/2023." = false := by
  refine ⟨fun now d => ?_, rfl, by decide, rfl, rfl⟩
  simp [dateInWindow]

/-- The C3 counterexample text: ten out-of-window numeric dates followed by
an ambiguous date whose MM/DD reading is inside the window. -/
def capText : String :=
  "01/01/1990 01/01/1990 01/01/1990 01/01/1990 01/01/1990 01/01/1990 01/01/1990 01/01/1990 01/01/1990 01/01/1990 03/04/2024"

/-- C3 counterexample: the claim fails as stated because the numeric stage
only examines the first ten regex matches.  `capText` contains the token
`03/04/2024`, whose MM/DD/YYYY reading (2024-03-04) is inside the window for
`now = 2024-07-01`, yet `checkDateWithinSixMonths` returns false: the
in-window token is the eleventh match. -/
theorem ambiguousDateCap_counterexample :
    strContains capText "03/04/2024" = true ∧
    dateInWindow (sixMonthsAgoDays ⟨2024, 6, 1⟩) (nowDays ⟨2024, 6, 1⟩)
      (jsMakeDate 2024 2 4) = true ∧
    (scanNumeric capText.toList).length = 11 ∧
    checkDateWithinSixMonths ⟨2024, 6, 1⟩ capText = false :=
  ⟨rfl, rfl, rfl, rfl⟩

/-- C3 (amended): restricted to the first ten numeric-regex matches, the
either-interpretation acceptance holds — whenever some match among the first
ten parses to an in-window date under the MM/DD/YYYY or the DD/MM/YYYY
reading, `checkDateWithinSixMonths` returns true (whatever the later written
and ordinal stages would say). -/
theorem ambiguousDateEitherReading (now : JsNow) (content : String)
    (hlen : ¬ content.length < 10)
    (h : ((scanNumeric content.toList).take 10).any (fun nd =>
        dateInWindow (sixMonthsAgoDays now) (nowDays now)
          (jsMakeDate (nd.year : Int) ((nd.p1 : Int) - 1) (nd.p2 : Int)) ||
        dateInWindow (sixMonthsAgoDays now) (nowDays now)
          (jsMakeDate (nd.year : Int) ((nd.p2 : Int) - 1) (nd.p1 : Int))) = true) :
    checkDateWithinSixMonths now content = true := by
  unfold checkDateWithinSixMonths
  rw [if_neg hlen]
  simp only [h, if_true]

/-- Witness for the amended C3: `03/04/2024 x` with `now = 2024-09-10`, where
the MM/DD reading (2024-03-04) is out of the window and only the DD/MM
reading (2024-04-03) is inside it. -/
theorem ambiguousDateEitherReading_witness :
    (¬ ("03/04/2024 x".length < 10)) ∧
    ((scanNumeric "03/04/2024 x".toList).take 10).any (fun nd =>
        dateInWindow (sixMonthsAgoDays ⟨2024, 8, 10⟩) (nowDays ⟨2024, 8, 10⟩)
          (jsMakeDate (nd.year : Int) ((nd.p1 : Int) - 1) (nd.p2 : Int)) ||
        dateInWindow (sixMonthsAgoDays ⟨2024, 8, 10⟩) (nowDays ⟨2024, 8, 10⟩)
          (jsMakeDate (nd.year : Int) ((nd.p2 : Int) - 1) (nd.p1 : Int))) = true ∧
    dateInWindow (sixMonthsAgoDays ⟨2024, 8, 10⟩) (nowDays ⟨2024, 8, 10⟩)
      (jsMakeDate 2024 2 4) = false ∧
    checkDateWithinSixMonths ⟨2024, 8, 10⟩ "03/04/2024 x" = true :=
  ⟨by decide, by rfl, by rfl,
   ambiguousDateEitherReading ⟨2024, 8, 10⟩ "03/04/2024 x" (by decide) (by rfl)⟩

/-- C6: abbreviation and partial-name tolerance on the three specified pairs:
`Acme LLC` matches its expanded form; `Acme LLC` does not match `Acme Corp`
(their detected entity types are `limited liability company` versus
`corporation`, which are incompatible); bare `Acme` matches `Acme Inc`
(the bare side has no detected entity type). -/
theorem abbreviationEquivalence :
    organizationNamesMatch "Acme LLC" "Acme Limited Liability Company" = true ∧
    organizationNamesMatch "Acme LLC" "Acme Corp" = false ∧
    getEntityType (normalizeOrganizationName "Acme LLC") = some "limited liability company" ∧
    getEntityType (normalizeOrganizationName "Acme Corp") = some "corporation" ∧
    organizationNamesMatch "Acme" "Acme Inc" = true ∧
    getEntityType (normalizeOrganizationName "Acme") = none :=
  ⟨rfl, rfl, rfl, rfl, rfl, rfl⟩

/-- C7 counterexample: the substring branch does not behave as the claim
states.  The entity type is the first entry of the fixed list that occurs
anywhere in the name, not the longest matching suffix (for
`acme limited partnership` it is `limited`, not `limited partnership`); and
the pair {corporation, incorporated}, which the claim calls compatible, is
rejected in this branch: `acme corporation` against
`acme corporation incorporated` is a substring pair with exactly these two
entity types, yet the matcher returns false. -/
theorem substringBranchEntityTypes_counterexample :
    getEntityType "acme limited partnership" = some "limited" ∧
    strContains (normalizeOrganizationName "acme corporation incorporated")
      (normalizeOrganizationName "acme corporation") = true ∧
    getEntityType (normalizeOrganizationName "acme corporation") = some "corporation" ∧
    getEntityType (normalizeOrganizationName "acme corporation incorporated") =
      some "incorporated" ∧
    organizationNamesMatch "acme corporation" "acme corporation incorporated" = false :=
  ⟨rfl, rfl, rfl, rfl, rfl⟩

/-- C7 (amended): in the substring branch the detected entity type of each
side is the first entry of the fixed entity-type list occurring anywhere in
the normalized name (`none` if none occurs), and the match is accepted
exactly when the two types are equal, at least one is absent, or one type's
full name contains the other's as a substring; no other compatibility rule
applies in this branch (the {corporation, incorporated} and
{company, corporation} pairs belong to the core-name branch only). -/
theorem substringBranchGate (a b : String)
    (hne0 : ¬ (a = "" ∨ b = ""))
    (hne : ¬ (normalizeOrganizationName a = normalizeOrganizationName b))
    (hsub : (strContains (normalizeOrganizationName a) (normalizeOrganizationName b) ||
             strContains (normalizeOrganizationName b) (normalizeOrganizationName a)) = true) :
    organizationNamesMatch a b =
      substringGate (getEntityType (normalizeOrganizationName a))
        (getEntityType (normalizeOrganizationName b)) := by
  unfold organizationNamesMatch
  rw [if_neg hne0, if_neg hne, if_pos hsub]

/-- Witness for the amended C7 at `Acme` / `Acme Inc` (one side without an
entity type, accepted). -/
theorem substringBranchGate_witness :
    (¬ (("Acme" : String) = "" ∨ ("Acme Inc" : String) = "")) ∧
    (¬ (normalizeOrganizationName "Acme" = normalizeOrganizationName "Acme Inc")) ∧
    (strContains (normalizeOrganizationName "Acme") (normalizeOrganizationName "Acme Inc") ||
     strContains (normalizeOrganizationName "Acme Inc") (normalizeOrganizationName "Acme")) =
      true ∧
    organizationNamesMatch "Acme" "Acme Inc" =
      substringGate (getEntityType (normalizeOrganizationName "Acme"))
        (getEntityType (normalizeOrganizationName "Acme Inc")) :=
  ⟨by decide, by decide, by rfl, substringBranchGate "Acme" "Acme Inc" (by decide) (by decide) (by rfl)⟩

/-- The number of unconditional presence checks of each rule set (the
keyword / phrase / date / section checks that always run; the conditional
organization-name, FEIN and rejected-issuer checks are not counted,
matching the source's unconditional `missingElements.push` sites). -/
def mandatoryCheckCount (dt : String) : Nat :=
  (((([("tax-clearance-online", 8), ("tax-clearance-manual", 8), ("cert-alternative-name", 3),
      ("cert-trade-name", 1), ("cert-formation", 8), ("cert-formation-independent", 7),
      ("cert-good-standing-long", 10), ("cert-good-standing-short", 5),
      ("operating-agreement", 6), ("cert-incorporation", 6), ("irs-determination", 3),
      ("bylaws", 14), ("cert-authority", 4), ("cert-authority-auto", 4)]
      : List (String × Nat)).find? (fun p => p.1 == dt)).map Prod.snd).getD 0)

/-- C8: for every recognized document type and any clock, validating empty
content with empty key/value pairs and pages returns (totally, without
failing) an outcome in which every mandatory presence check reports its
element missing — `missingElements.length` equals the number of mandatory
checks of the type — the optional organization-name and FEIN reconciliation
checks are skipped (no missing element mentions a mismatch), and no
organization name is detected. -/
theorem emptyContentAllChecksFail (now : JsNow) (dt : String)
    (hdt : dt ∈ recognizedDocumentTypes) :
    (validateDocumentByType now
        { documentType := dt, content := "", contentLower := "", pages := [],
          keyValuePairs := [], formFields := ⟨"", "", ""⟩ }).missingElements.length =
      mandatoryCheckCount dt ∧
    (validateDocumentByType now
        { documentType := dt, content := "", contentLower := "", pages := [],
          keyValuePairs := [], formFields := ⟨"", "", ""⟩ }).detectedOrganizationName = none ∧
    ((validateDocumentByType now
        { documentType := dt, content := "", contentLower := "", pages := [],
          keyValuePairs := [], formFields := ⟨"", "", ""⟩ }).missingElements.all
      (fun e => !(strContains e "match"))) = true := by
  fin_cases hdt <;> exact ⟨rfl, rfl, rfl⟩

/-- Witness for C8 at the `bylaws` type (fourteen mandatory checks). -/
theorem emptyContentAllChecksFail_witness :
    "bylaws" ∈ recognizedDocumentTypes ∧
      ((validateDocumentByType ⟨2024, 6, 1⟩
          { documentType := "bylaws", content := "", contentLower := "", pages := [],
            keyValuePairs := [], formFields := ⟨"", "", ""⟩ }).missingElements.length =
        mandatoryCheckCount "bylaws" ∧
      (validateDocumentByType ⟨2024, 6, 1⟩
          { documentType := "bylaws", content := "", contentLower := "", pages := [],
            keyValuePairs := [], formFields := ⟨"", "", ""⟩ }).detectedOrganizationName = none ∧
      ((validateDocumentByType ⟨2024, 6, 1⟩
          { documentType := "bylaws", content := "", contentLower := "", pages := [],
            keyValuePairs := [], formFields := ⟨"", "", ""⟩ }).missingElements.all
        (fun e => !(strContains e "match"))) = true) :=
  ⟨by decide, emptyContentAllChecksFail ⟨2024, 6, 1⟩ "bylaws" (by decide)⟩

/-- C9: the response's `organizationNameMatches` is derived purely from the
rule-set outcome: it is false exactly when some `missingElements` entry
contains the fixed name-mismatch substring, and true otherwise; in the
name-mismatch scenario (detected name `BETA CORPORATION`, entered name
`Beta LLC`) the mismatch entry is present and the field is false. -/
theorem orgNameMatchesDerived :
    (∀ v : ValidationOutcome,
        handlerOrgNameMatches v = false ↔
          ∃ e ∈ v.missingElements,
            strContains e "Organization name doesn\x27t match" = true) ∧
    ("Organization name doesn\x27t match the one on the certificate" ∈
        (validateDocumentByType ⟨2024, 6, 1⟩
          { documentType := "tax-clearance-online",
            content := "BETA CORPORATION\nCLEARANCE CERTIFICATE\nother",
            contentLower := jsToLower "BETA CORPORATION\nCLEARANCE CERTIFICATE\nother",
            pages := [], keyValuePairs := [],
            formFields := ⟨"Beta LLC", "", ""⟩ }).missingElements) ∧
    handlerOrgNameMatches
      (validateDocumentByType ⟨2024, 6, 1⟩
        { documentType := "tax-clearance-online",
          content := "BETA CORPORATION\nCLEARANCE CERTIFICATE\nother",
          contentLower := jsToLower "BETA CORPORATION\nCLEARANCE CERTIFICATE\nother",
          pages := [], keyValuePairs := [],
          formFields := ⟨"Beta LLC", "", ""⟩ }) = false := by
  refine ⟨fun v => ?_, by decide, by rfl⟩
  unfold handlerOrgNameMatches
  simp [List.any_eq_true]

/-- C10: the matcher returns false whenever either argument is empty (the
model of a null / undefined / empty-string argument); in particular
`organizationNamesMatch "" ""` is false although both sides normalize to the
same (empty) string, so the matcher is not reflexive on empty input. -/
theorem matcherFalseOnEmpty (a b : String) (h : a = "" ∨ b = "") :
    organizationNamesMatch a b = false := by
  unfold organizationNamesMatch
  rw [if_pos h]

/-- Witness for C10 at the pair of empty strings. -/
theorem matcherFalseOnEmpty_witness :
    (("" : String) = "" ∨ ("" : String) = "") ∧
      organizationNamesMatch "" "" = false ∧
      normalizeOrganizationName "" = normalizeOrganizationName "" :=
  ⟨Or.inl rfl, matcherFalseOnEmpty "" "" (Or.inl rfl), rfl⟩

theorem substringGate_comm (e1 e2 : Option String) :
    substringGate e1 e2 = substringGate e2 e1 := by
  unfold substringGate
  by_cases h : e1 = e2
  · subst h; rfl
  · have h1 : (e1 == e2) = false := beq_eq_false_iff_ne.mpr h
    have h2 : (e2 == e1) = false := beq_eq_false_iff_ne.mpr (Ne.symm h)
    rw [h1, h2]
    generalize e1.isNone = x
    generalize e2.isNone = y
    generalize optIncludes e1 e2 = p
    generalize optIncludes e2 e1 = q
    cases x <;> cases y <;> cases p <;> cases q <;> rfl

theorem coreGate_comm (e1 e2 : Option String) :
    coreGate e1 e2 = coreGate e2 e1 := by
  unfold coreGate
  by_cases h : e1 = e2
  · subst h; rfl
  · have h1 : (e1 == e2) = false := beq_eq_false_iff_ne.mpr h
    have h2 : (e2 == e1) = false := beq_eq_false_iff_ne.mpr (Ne.symm h)
    rw [h1, h2]
    generalize (e1 == some "corporation") = a1
    generalize (e1 == some "incorporated") = a2
    generalize (e1 == some "company") = a3
    generalize (e2 == some "corporation") = b1
    generalize (e2 == some "incorporated") = b2
    generalize (e2 == some "company") = b3
    generalize e1.isNone = x
    generalize e2.isNone = y
    cases x <;> cases y <;> cases a1 <;> cases a2 <;> cases a3 <;> cases b1 <;> cases b2 <;>
      cases b3 <;> rfl

/-- C4: the matcher is symmetric — `organizationNamesMatch a b` equals
`organizationNamesMatch b a` for all strings: every stage (empty-argument
guard, normalized equality, two-way substring containment with its
entity-type gate, and equal core names with the compatible-pair gate) is
invariant under swapping the arguments. -/
theorem organizationNamesMatch_symm (a b : String) :
    organizationNamesMatch a b = organizationNamesMatch b a := by
  simp only [organizationNamesMatch]
  by_cases h0 : a = "" ∨ b = ""
  · rw [if_pos h0, if_pos (Or.symm h0)]
  · rw [if_neg h0, if_neg (fun hc => h0 (Or.symm hc))]
    by_cases h1 : normalizeOrganizationName a = normalizeOrganizationName b
    · rw [if_pos h1, if_pos (Eq.symm h1)]
    · rw [if_neg h1, if_neg (fun hc => h1 (Eq.symm hc))]
      rw [Bool.or_comm (strContains (normalizeOrganizationName b) (normalizeOrganizationName a))
          (strContains (normalizeOrganizationName a) (normalizeOrganizationName b))]
      by_cases h2 : (strContains (normalizeOrganizationName a) (normalizeOrganizationName b) ||
          strContains (normalizeOrganizationName b) (normalizeOrganizationName a)) = true
      · rw [if_pos h2, if_pos h2]
        exact substringGate_comm _ _
      · rw [if_neg h2, if_neg h2]
        by_cases h3 : removeEntitySuffixes (normalizeOrganizationName a) ≠ "" ∧
            removeEntitySuffixes (normalizeOrganizationName b) ≠ "" ∧
            2 < (removeEntitySuffixes (normalizeOrganizationName a)).length ∧
            2 < (removeEntitySuffixes (normalizeOrganizationName b)).length ∧
            removeEntitySuffixes (normalizeOrganizationName a) =
              removeEntitySuffixes (normalizeOrganizationName b)
        · have h3s : removeEntitySuffixes (normalizeOrganizationName b) ≠ "" ∧
              removeEntitySuffixes (normalizeOrganizationName a) ≠ "" ∧
              2 < (removeEntitySuffixes (normalizeOrganizationName b)).length ∧
              2 < (removeEntitySuffixes (normalizeOrganizationName a)).length ∧
              removeEntitySuffixes (normalizeOrganizationName b) =
                removeEntitySuffixes (normalizeOrganizationName a) :=
            ⟨h3.2.1, h3.1, h3.2.2.2.1, h3.2.2.1, h3.2.2.2.2.symm⟩
          rw [if_pos h3, if_pos h3s]
          exact coreGate_comm _ _
        · have h3s : ¬ (removeEntitySuffixes (normalizeOrganizationName b) ≠ "" ∧
              removeEntitySuffixes (normalizeOrganizationName a) ≠ "" ∧
              2 < (removeEntitySuffixes (normalizeOrganizationName b)).length ∧
              2 < (removeEntitySuffixes (normalizeOrganizationName a)).length ∧
              removeEntitySuffixes (normalizeOrganizationName b) =
                removeEntitySuffixes (normalizeOrganizationName a)) :=
            fun hs => h3 ⟨hs.2.1, hs.1, hs.2.2.2.1, hs.2.2.1, hs.2.2.2.2.symm⟩
          rw [if_neg h3, if_neg h3s]

end NJEase
